import Mathlib

/-!
Shallow embedding of the Plasmatic vesting / token-locking contracts and proofs
about their release accounting.

Sources embedded here:
* `src/unnamed/part_003` — the step-release `PlasmaticVesting` contract
  (`createSchedulesEqual`, `getClaimableAmount`, `claim`), namespace `StepVesting`.
* `src/remix-contracts/PlasmaticVesting.sol` — the monthly linear/custom vesting
  contract (`createSchedule`, `getClaimableAmount`, `claim`), namespace `MonthVesting`.
* `src/next.config.ts` — the two `VestingFactory` contracts embedded in that file,
  namespaces `VestingFactoryA` (the Linear/Step month-based factory) and
  `VestingFactoryB` (the seconds-based factory with `getReleasableAmount`).
* `src/remix-contracts/PlasmaticTokenLockerV1.sol` — the token locker with the
  swap-with-last-and-pop owner index, namespace `TokenLockerV1`.

Modelling conventions:
* Addresses are `Nat`; `0` is the zero address.  `uint256` quantities are `Nat`
  (Solidity 0.8 arithmetic reverts on wrap, and every state reached below stays
  far from `2^256`, so unbounded `Nat` agrees with the source on all inputs that
  the theorems mention).  The `uint64` time fields of the step contract are
  likewise `Nat`, assuming timestamps below `2^64`.
* Storage mappings are total functions with the Solidity zero value as default.
* A reverting external call (`transfer` / `transferFrom` returning `false`, or a
  reverting `SafeERC20` call) is modelled by a `Bool` parameter giving the call's
  outcome.  A revert is an `Except.error`; the `apply…` wrappers keep the
  pre-state on error, which is exactly the EVM's transaction rollback.
-/

/-- Seconds in `30 days`, the `SECONDS_PER_MONTH` / `MONTH` constant that all of
the vesting contracts share. -/
def SECONDS_PER_MONTH : Nat := 2592000

/-- Point update of a storage mapping, `m[k] = v`. -/
def setMap {α : Type} (m : Nat → α) (k : Nat) (v : α) : Nat → α :=
  fun j => if j = k then v else m j

/-- `userSchedules[u].push(id)` / `ownerLocks[u].push(id)`: append `id` to the
array stored for key `u`. -/
def pushUser (m : Nat → List Nat) (u id : Nat) : Nat → List Nat :=
  fun v => if v = u then m v ++ [id] else m v

/-- Union of the custom revert errors declared by the two vesting contracts. -/
inductive VErr where
  | invalidParams
  | invalidArrayLength
  | tooManyRecipients
  | invalidSchedule
  | invalidCustomSchedule
  | notBeneficiary
  | nothingToRelease
  | transferFailed
  | arithUnderflow
deriving DecidableEq, Repr

namespace StepVesting

/-- The `Schedule` struct of the step-release `PlasmaticVesting` contract
(`src/unnamed/part_003`). -/
structure Schedule where
  token : Nat
  beneficiary : Nat
  totalAmount : Nat
  released : Nat
  start : Nat
  cliffEnd : Nat
  duration : Nat
  interval : Nat
  isActive : Bool
deriving DecidableEq, Repr

/-- The all-zero storage slot an unwritten mapping entry decodes to. -/
def Schedule.empty : Schedule := ⟨0, 0, 0, 0, 0, 0, 0, 0, false⟩

/-- Contract storage: `nextScheduleId`, `schedules`, `userSchedules`. -/
structure State where
  nextScheduleId : Nat
  schedules : Nat → Schedule
  userSchedules : Nat → List Nat

/-- Freshly deployed contract. -/
def initState : State := ⟨0, fun _ => Schedule.empty, fun _ => []⟩

/-- Body of the `for` loop of `createSchedulesEqual`: one iteration per
recipient, allocating `++nextScheduleId`, storing the schedule and pushing the
id onto the beneficiary's and then the caller's `userSchedules` array. -/
def createLoop (caller token baseShare remainder startTs cliffEnd duration interval : Nat) :
    List Nat → Nat → State → Except VErr State
  | [], _, st => .ok st
  | b :: rest, i, st =>
    if b = 0 then .error .invalidParams
    else
      let share := baseShare + (if i < remainder then 1 else 0)
      let id := st.nextScheduleId + 1
      let st' : State :=
        { nextScheduleId := id
          schedules := setMap st.schedules id
            ⟨token, b, share, 0, startTs, cliffEnd, duration, interval, true⟩
          userSchedules := pushUser (pushUser st.userSchedules b id) caller id }
      createLoop caller token baseShare remainder startTs cliffEnd duration interval rest (i + 1) st'

/-- `createSchedulesEqual(token, recipients, totalAmount, cliffSeconds,
durationSeconds, intervalSeconds)`.  `pullOk` is the outcome of the single
inbound `safeTransferFrom` (which reverts on failure).  `now` is
`block.timestamp`. -/
def createSchedulesEqual (st : State) (caller token : Nat) (recipients : List Nat)
    (totalAmount cliff duration interval : Nat) (pullOk : Bool) (now : Nat) :
    Except VErr State :=
  if token = 0 ∨ totalAmount = 0 then .error .invalidParams
  else if recipients.length = 0 then .error .invalidArrayLength
  else if 20 < recipients.length then .error .tooManyRecipients
  else if duration = 0 ∨ interval = 0 ∨ duration % interval ≠ 0 then .error .invalidSchedule
  else if pullOk = false then .error .transferFailed
  else
    createLoop caller token (totalAmount / recipients.length) (totalAmount % recipients.length)
      now (now + cliff) duration interval recipients 0 st

/-- `getClaimableAmount(scheduleId)` of the step contract, evaluated at
`block.timestamp = now`. -/
def getClaimableAmount (st : State) (scheduleId now : Nat) : Nat :=
  let s := st.schedules scheduleId
  if s.totalAmount = 0 ∨ s.isActive = false then 0
  else if now < s.cliffEnd then 0
  else
    let totalSteps := s.duration / s.interval
    if totalSteps = 0 then 0
    else
      let elapsedAfterCliff := if now ≤ s.cliffEnd then 0 else now - s.cliffEnd
      let maturedSteps0 := 1 + elapsedAfterCliff / s.interval
      let maturedSteps := if totalSteps < maturedSteps0 then totalSteps else maturedSteps0
      let basePerStep := s.totalAmount / totalSteps
      let rem := s.totalAmount % totalSteps
      let vested := basePerStep * maturedSteps + (if maturedSteps < rem then maturedSteps else rem)
      if vested ≤ s.released then 0 else vested - s.released

/-- The schedule stored back by a successful `claim`: `s.released += amount`,
then `if (s.released >= s.totalAmount) s.isActive = false`. -/
def claimedSchedule (s : Schedule) (amount : Nat) : Schedule :=
  { s with released := s.released + amount
           isActive := if s.totalAmount ≤ s.released + amount then false else s.isActive }

/-- The post-state of a successful `claim(scheduleId)`. -/
def claimResult (st : State) (scheduleId now : Nat) : State :=
  { st with
    schedules :=
      setMap st.schedules scheduleId
        (claimedSchedule (st.schedules scheduleId) (getClaimableAmount st scheduleId now)) }

/-- `claim(scheduleId)` of the step contract.  `transferOk` is the outcome of
the outbound `safeTransfer` (which reverts on failure). -/
def claim (st : State) (caller scheduleId now : Nat) (transferOk : Bool) :
    Except VErr State :=
  let s := st.schedules scheduleId
  if s.totalAmount = 0 then .error .invalidSchedule
  else if caller ≠ s.beneficiary then .error .notBeneficiary
  else
    let amount := getClaimableAmount st scheduleId now
    if amount = 0 then .error .nothingToRelease
    else
      if transferOk = false then .error .transferFailed
      else .ok (claimResult st scheduleId now)

/-- One externally submitted transaction against the step contract. -/
inductive Op where
  | createEqual (caller token : Nat) (recipients : List Nat)
      (totalAmount cliff duration interval : Nat) (pullOk : Bool) (now : Nat)
  | doClaim (caller scheduleId now : Nat) (transferOk : Bool)

/-- Transaction semantics: a revert leaves the storage untouched. -/
def applyOp (st : State) : Op → State
  | .createEqual caller token recips total cliff dur intv pullOk now =>
    match createSchedulesEqual st caller token recips total cliff dur intv pullOk now with
    | .ok st' => st'
    | .error _ => st
  | .doClaim caller id now tOk =>
    match claim st caller id now tOk with
    | .ok st' => st'
    | .error _ => st

/-- Run a sequence of transactions. -/
def run (st : State) (ops : List Op) : State := ops.foldl applyOp st

/-- Ids strictly above the counter are unwritten storage slots. -/
def GoodIds (st : State) : Prop :=
  ∀ id, st.nextScheduleId < id → st.schedules id = Schedule.empty

end StepVesting

namespace MonthVesting

/-- The `Schedule` struct of `src/remix-contracts/PlasmaticVesting.sol`. -/
structure Schedule where
  token : Nat
  beneficiary : Nat
  totalAmount : Nat
  released : Nat
  start : Nat
  cliffMonths : Nat
  durationMonths : Nat
  isActive : Bool
deriving DecidableEq, Repr

/-- The all-zero storage slot an unwritten mapping entry decodes to. -/
def Schedule.empty : Schedule := ⟨0, 0, 0, 0, 0, 0, 0, false⟩

/-- The `CustomRelease` struct of `PlasmaticVesting.sol`. -/
structure CustomRelease where
  timestamp : Nat
  amount : Nat
  claimed : Bool
deriving DecidableEq, Repr

/-- Contract storage of `PlasmaticVesting.sol`. -/
structure State where
  nextScheduleId : Nat
  schedules : Nat → Schedule
  customReleases : Nat → List CustomRelease
  userSchedules : Nat → List Nat

/-- Freshly deployed contract. -/
def initState : State := ⟨0, fun _ => Schedule.empty, fun _ => [], fun _ => []⟩

/-- Validation loop over `customReleases_` in `createSchedule`, after the first
entry: reverts on a pre-claimed entry or a timestamp not above the previous one,
and accumulates the amount sum. -/
def checkCustomAux : List CustomRelease → Nat → Nat → Except VErr Nat
  | [], _, acc => .ok acc
  | r :: rest, prevTs, acc =>
    if r.claimed = true then .error .invalidCustomSchedule
    else if r.timestamp ≤ prevTs then .error .invalidCustomSchedule
    else checkCustomAux rest r.timestamp (acc + r.amount)

/-- Validation loop over `customReleases_` in `createSchedule` (the `i = 0`
iteration skips the ordering check, exactly as the source does). -/
def checkCustom : List CustomRelease → Except VErr Nat
  | [] => .ok 0
  | r :: rest =>
    if r.claimed = true then .error .invalidCustomSchedule
    else checkCustomAux rest r.timestamp r.amount

/-- The post-state of a successful `createSchedule`: the new schedule is stored
under `++nextScheduleId`, the custom entries are stored with `claimed = false`,
and the id is pushed onto the caller's and then the beneficiary's
`userSchedules` array, exactly as the source does. -/
def createResult (st : State)
    (caller token beneficiary totalAmount cliffMonths durationMonths : Nat)
    (custom : List CustomRelease) (now : Nat) : State :=
  let id := st.nextScheduleId + 1
  { nextScheduleId := id
    schedules :=
      setMap st.schedules id
        ⟨token, beneficiary, totalAmount, 0, now, cliffMonths, durationMonths, true⟩
    customReleases :=
      setMap st.customReleases id (custom.map fun r => ⟨r.timestamp, r.amount, false⟩)
    userSchedules := pushUser (pushUser st.userSchedules caller id) beneficiary id }

/-- `createSchedule(token, beneficiary, totalAmount, cliffMonths, durationMonths,
customReleases_)`.  `pullOk` is the outcome of the inbound `transferFrom`; `now`
is `block.timestamp`. -/
def createSchedule (st : State) (caller token beneficiary totalAmount cliffMonths durationMonths : Nat)
    (custom : List CustomRelease) (pullOk : Bool) (now : Nat) : Except VErr State :=
  if token = 0 ∨ beneficiary = 0 ∨ totalAmount = 0 then .error .invalidParams
  else
    let check : Except VErr Unit :=
      if custom.length = 0 then
        if durationMonths = 0 ∨ durationMonths ≤ cliffMonths then .error .invalidSchedule
        else .ok ()
      else
        match checkCustom custom with
        | .error e => .error e
        | .ok sum => if sum ≠ totalAmount then .error .invalidCustomSchedule else .ok ()
    match check with
    | .error e => .error e
    | .ok _ =>
      if pullOk = false then .error .transferFailed
      else .ok (createResult st caller token beneficiary totalAmount cliffMonths durationMonths
        custom now)

/-- `getClaimableAmount(scheduleId)` of `PlasmaticVesting.sol`, evaluated at
`block.timestamp = now`. -/
def getClaimableAmount (st : State) (scheduleId now : Nat) : Nat :=
  let s := st.schedules scheduleId
  if s.totalAmount = 0 ∨ s.isActive = false then 0
  else
    let rs := st.customReleases scheduleId
    if rs.length ≠ 0 then
      rs.foldl (fun acc r => if r.claimed = false ∧ r.timestamp ≤ now then acc + r.amount else acc) 0
    else
      let start := s.start
      let cliffTime := start + s.cliffMonths * SECONDS_PER_MONTH
      let endTime := start + s.durationMonths * SECONDS_PER_MONTH
      if now < cliffTime then 0
      else if endTime ≤ now then s.totalAmount - s.released
      else
        let linearDuration := endTime - cliffTime
        let timeInto := now - cliffTime
        let vested := s.totalAmount * timeInto / linearDuration
        if vested ≤ s.released then 0 else vested - s.released

/-- The amount a `claim(scheduleId)` of `PlasmaticVesting.sol` pays out: the
sum of all due unclaimed entries on the custom path, the linear claimable
amount otherwise. -/
def claimAmount (st : State) (scheduleId now : Nat) : Nat :=
  let rs := st.customReleases scheduleId
  if rs.length ≠ 0 then
    rs.foldl (fun acc r => if r.claimed = false ∧ r.timestamp ≤ now then acc + r.amount else acc) 0
  else getClaimableAmount st scheduleId now

/-- The released counter as `claim` leaves it: the custom path never touches
`s.released`, the linear path does `s.released += amount`. -/
def claimReleased (st : State) (scheduleId now : Nat) : Nat :=
  if (st.customReleases scheduleId).length ≠ 0 then (st.schedules scheduleId).released
  else (st.schedules scheduleId).released + claimAmount st scheduleId now

/-- The custom entry list after `claim` flips the `claimed` flag of every due
unclaimed entry (identity on the empty list of a linear schedule). -/
def claimedCustom (rs : List CustomRelease) (now : Nat) : List CustomRelease :=
  rs.map fun r => if r.claimed = false ∧ r.timestamp ≤ now then ⟨r.timestamp, r.amount, true⟩ else r

/-- The schedule stored back by a successful `claim(scheduleId)` of
`PlasmaticVesting.sol`.  The deactivation test is the source's
`s.released + amount >= s.totalAmount`, evaluated on the *already updated*
`released` — on the linear path this double-counts `amount`. -/
def claimedSchedule (st : State) (scheduleId now : Nat) : Schedule :=
  let s := st.schedules scheduleId
  let amount := claimAmount st scheduleId now
  let released' := claimReleased st scheduleId now
  { s with released := released'
           isActive := if s.totalAmount ≤ released' + amount then false else s.isActive }

/-- The post-state of a successful `claim(scheduleId)` of `PlasmaticVesting.sol`. -/
def claimResult (st : State) (scheduleId now : Nat) : State :=
  { st with
    schedules := setMap st.schedules scheduleId (claimedSchedule st scheduleId now)
    customReleases :=
      setMap st.customReleases scheduleId (claimedCustom (st.customReleases scheduleId) now) }

/-- `claim(scheduleId)` of `PlasmaticVesting.sol`.  The linear path increments
`s.released` by the claimable amount and the custom path flips the `claimed`
flags of all due entries; the contract then tests
`s.released + amount >= s.totalAmount` on the already incremented `released`
before emitting `TokensReleased` with `s.totalAmount - (s.released + amount)`,
whose `uint256` subtraction reverts (Panic 0x11) when it underflows —
`arithUnderflow` models that revert.  `transferOk` is the outcome of the
outbound `transfer`. -/
def claim (st : State) (caller scheduleId now : Nat) (transferOk : Bool) :
    Except VErr State :=
  let s := st.schedules scheduleId
  if s.totalAmount = 0 then .error .invalidSchedule
  else if caller ≠ s.beneficiary then .error .notBeneficiary
  else
    let amount := claimAmount st scheduleId now
    if amount = 0 then .error .nothingToRelease
    else if transferOk = false then .error .transferFailed
    else if s.totalAmount < claimReleased st scheduleId now + amount then .error .arithUnderflow
    else .ok (claimResult st scheduleId now)

/-- Transactional wrapper for `createSchedule`: a revert leaves storage untouched. -/
def applyCreate (st : State) (caller token beneficiary totalAmount cliffMonths durationMonths : Nat)
    (custom : List CustomRelease) (pullOk : Bool) (now : Nat) : State :=
  match createSchedule st caller token beneficiary totalAmount cliffMonths durationMonths custom pullOk now with
  | .ok st' => st'
  | .error _ => st

/-- Transactional wrapper for `claim`: a revert leaves storage untouched. -/
def applyClaim (st : State) (caller scheduleId now : Nat) (transferOk : Bool) : State :=
  match claim st caller scheduleId now transferOk with
  | .ok st' => st'
  | .error _ => st

end MonthVesting

namespace VestingFactoryA

/-- `ReleaseMode` of the first `VestingFactory` contract in `src/next.config.ts`. -/
inductive ReleaseMode where
  | linear
  | step
deriving DecidableEq, Repr

/-- The `Schedule` struct of that factory. -/
structure Schedule where
  beneficiary : Nat
  totalAmount : Nat
  released : Nat
  start : Nat
  cliffMonths : Nat
  durationMonths : Nat
  mode : ReleaseMode
deriving DecidableEq, Repr

/-- `_vestedAmount(s)` of the first `VestingFactory` in `src/next.config.ts`,
evaluated at `block.timestamp = now`.  The Step branch vests in whole months:
`floor(total * vestedMonths / totalVestingMonths)`. -/
def vestedAmount (s : Schedule) (now : Nat) : Nat :=
  let endTime := s.start + s.durationMonths * SECONDS_PER_MONTH
  let cliffTime := s.start + s.cliffMonths * SECONDS_PER_MONTH
  let total := s.totalAmount
  if now < cliffTime then 0
  else if endTime ≤ now then total
  else
    match s.mode with
    | .linear => total * (now - cliffTime) / (endTime - cliffTime)
    | .step =>
      let elapsedMonths := (now - s.start) / SECONDS_PER_MONTH
      if elapsedMonths ≤ s.cliffMonths then 0
      else
        let vestedMonths0 := elapsedMonths - s.cliffMonths
        let totalVestingMonths := s.durationMonths - s.cliffMonths
        let vestedMonths := if totalVestingMonths < vestedMonths0 then totalVestingMonths else vestedMonths0
        total * vestedMonths / totalVestingMonths

/-- `claimableAmount` of the same factory (vested minus released, clamped at 0). -/
def claimableAmount (s : Schedule) (now : Nat) : Nat :=
  if s.totalAmount = 0 then 0
  else
    let vested := vestedAmount s now
    if vested ≤ s.released then 0 else vested - s.released

end VestingFactoryA

namespace VestingFactoryB

/-- The `VestingSchedule` struct of the second `VestingFactory` contract in
`src/next.config.ts`. -/
structure VestingSchedule where
  token : Nat
  beneficiary : Nat
  creator : Nat
  totalAmount : Nat
  startTime : Nat
  duration : Nat
  cliff : Nat
  isActive : Bool
  released : Nat
  creationTime : Nat
  description : String
deriving DecidableEq, Repr

/-- `getReleasableAmount(vestingId)` of the second `VestingFactory` in
`src/next.config.ts`, evaluated at `block.timestamp = now`.  Between cliff and
end it interpolates from `startTime` over the whole `duration`:
`total * (now - startTime) / duration - released`.  (The source's `uint256`
subtraction would revert if `released` exceeded the vested amount; the theorems
below only evaluate it where no underflow occurs, where `Nat` subtraction
agrees with the source.) -/
def getReleasableAmount (v : VestingSchedule) (now : Nat) : Nat :=
  if v.isActive = false then 0
  else if now < v.startTime + v.cliff then 0
  else if v.startTime + v.duration ≤ now then v.totalAmount - v.released
  else
    let elapsed := now - v.startTime
    let vested := v.totalAmount * elapsed / v.duration
    vested - v.released

end VestingFactoryB

namespace TokenLockerV1

/-- The `LockInfo` struct of `src/remix-contracts/PlasmaticTokenLockerV1.sol`. -/
structure LockInfo where
  token : Nat
  amount : Nat
  withdrawn : Nat
  lockUntil : Nat
  owner : Nat
deriving DecidableEq, Repr

/-- The all-zero storage slot an unwritten mapping entry decodes to. -/
def LockInfo.empty : LockInfo := ⟨0, 0, 0, 0, 0⟩

/-- Contract storage relevant to the lock index: `nextLockId`, `locks`,
`ownerLocks` and the private `ownerIndex` position map.  The fee configuration
(`feeAmount`, `feeRecipient`) does not touch this state and is folded into the
`feeOk` outcome parameter of `lock`. -/
structure State where
  nextLockId : Nat
  locks : Nat → LockInfo
  ownerLocks : Nat → List Nat
  ownerIndex : Nat → Nat

/-- Freshly deployed contract. -/
def initState : State := ⟨0, fun _ => LockInfo.empty, fun _ => [], fun _ => 0⟩

/-- Revert reasons of the locker (string requires are folded into the nearest
tag). -/
inductive LErr where
  | invalidParams
  | notOwner
  | nothingToWithdraw
  | feeMismatch
  | transferFailed
deriving DecidableEq, Repr

/-- The post-state of a successful `lock`: the new lock is stored under
`++nextLockId`, its position `ownerLocks[msg.sender].length` is recorded in
`ownerIndex` and the id is pushed onto the owner's array. -/
def lockResult (st : State) (caller token amount lockUntil : Nat) : State :=
  let lockId := st.nextLockId + 1
  { nextLockId := lockId
    locks := setMap st.locks lockId ⟨token, amount, 0, lockUntil, caller⟩
    ownerLocks := pushUser st.ownerLocks caller lockId
    ownerIndex := setMap st.ownerIndex lockId (st.ownerLocks caller).length }

/-- `lock(token, amount, lockUntil)`.  `feeOk` is the outcome of the
`msg.value == feeAmount` require together with the fee forwarding call, and
`pullOk` the outcome of the inbound `transferFrom`. -/
def lock (st : State) (caller token amount lockUntil now : Nat) (feeOk pullOk : Bool) :
    Except LErr State :=
  if token = 0 ∨ amount = 0 then .error .invalidParams
  else if lockUntil ≤ now then .error .invalidParams
  else if feeOk = false then .error .feeMismatch
  else if pullOk = false then .error .transferFailed
  else .ok (lockResult st caller token amount lockUntil)

/-- `withdrawable(lockId)` at `block.timestamp = now`. -/
def withdrawable (st : State) (lockId now : Nat) : Nat :=
  let info := st.locks lockId
  if info.amount = 0 then 0
  else if now < info.lockUntil then 0
  else info.amount - info.withdrawn

/-- The swap-with-last-and-pop removal of `lockId` from its owner's array in
`withdraw`, together with the `ownerIndex` rewiring: when the settled entry is
not last, the last id is moved into its slot and the moved id's recorded index
updated; the array is popped and the settled id's index entry deleted
(Solidity `delete` resets it to 0).  The source indexes `list[lastIdx]`
unguarded; the model uses `getD _ 0`, which agrees with the source whenever
the owner's array is non-empty (guaranteed by the index invariant proved
below). -/
def removeFromIndex (st : State) (o lockId : Nat) : (Nat → List Nat) × (Nat → Nat) :=
  let list := st.ownerLocks o
  let idx := st.ownerIndex lockId
  let lastIdx := list.length - 1
  let lastId := list.getD lastIdx 0
  if idx ≠ lastIdx then
    (setMap st.ownerLocks o ((list.set idx lastId).dropLast),
     setMap (setMap st.ownerIndex lastId idx) lockId 0)
  else
    (setMap st.ownerLocks o list.dropLast, setMap st.ownerIndex lockId 0)

/-- The post-state of a successful `withdraw(lockId)`: `withdrawn` grows by the
withdrawable amount and, once the lock is fully withdrawn, the id is removed
from the owner's array via `removeFromIndex`. -/
def withdrawResult (st : State) (lockId now : Nat) : State :=
  let info := st.locks lockId
  let amt := withdrawable st lockId now
  let info' : LockInfo := { info with withdrawn := info.withdrawn + amt }
  if info.amount ≤ info'.withdrawn then
    { st with locks := setMap st.locks lockId info'
              ownerLocks := (removeFromIndex st info.owner lockId).1
              ownerIndex := (removeFromIndex st info.owner lockId).2 }
  else
    { st with locks := setMap st.locks lockId info' }

/-- `withdraw(lockId)`.  `transferOk` is the outcome of the outbound
`transfer`. -/
def withdraw (st : State) (caller lockId now : Nat) (transferOk : Bool) :
    Except LErr State :=
  let info := st.locks lockId
  if info.owner ≠ caller then .error .notOwner
  else
    let amt := withdrawable st lockId now
    if amt = 0 then .error .nothingToWithdraw
    else if transferOk = false then .error .transferFailed
    else .ok (withdrawResult st lockId now)

/-- One externally submitted transaction against the locker. -/
inductive Op where
  | doLock (caller token amount lockUntil now : Nat) (feeOk pullOk : Bool)
  | doWithdraw (caller lockId now : Nat) (transferOk : Bool)

/-- Transaction semantics: a revert leaves the storage untouched. -/
def applyOp (st : State) : Op → State
  | .doLock caller token amount lockUntil now feeOk pullOk =>
    match lock st caller token amount lockUntil now feeOk pullOk with
    | .ok st' => st'
    | .error _ => st
  | .doWithdraw caller lockId now tOk =>
    match withdraw st caller lockId now tOk with
    | .ok st' => st'
    | .error _ => st

/-- Run a sequence of transactions. -/
def run (st : State) (ops : List Op) : State := ops.foldl applyOp st

/-- The index consistency invariant of the locker:
* every position `k` of every owner's array holds an id whose recorded
  `ownerIndex` is exactly `k`;
* every id listed for an owner is a live lock of that owner (positive amount,
  not fully withdrawn);
* ids above the counter are unwritten;
* every live lock is listed in its owner's array. -/
def Inv (s : State) : Prop :=
  (∀ o k, k < (s.ownerLocks o).length → s.ownerIndex ((s.ownerLocks o).getD k 0) = k)
  ∧ (∀ o id, id ∈ s.ownerLocks o →
      (s.locks id).owner = o ∧ 0 < (s.locks id).amount ∧
        (s.locks id).withdrawn < (s.locks id).amount)
  ∧ (∀ id, s.nextLockId < id → (s.locks id).amount = 0)
  ∧ (∀ id, 0 < (s.locks id).amount → (s.locks id).withdrawn < (s.locks id).amount →
      id ∈ s.ownerLocks ((s.locks id).owner))

end TokenLockerV1

/-- The Step-mode vested amount exactly as the specification states it
(§4.1): zero before `cliffEnd`; afterwards
`basePerStep * maturedSteps + min maturedSteps remainder` with
`totalSteps = duration / interval`,
`maturedSteps = min totalSteps (1 + (now - cliffEnd) / interval)`.  Written
from the spec's words, to be compared against the source's
`StepVesting.getClaimableAmount`. -/
def stepVestedSpec (s : StepVesting.Schedule) (now : Nat) : Nat :=
  if now < s.cliffEnd then 0
  else
    let steps := s.duration / s.interval
    let matured := min steps (1 + (now - s.cliffEnd) / s.interval)
    s.totalAmount / steps * matured + min matured (s.totalAmount % steps)

/-- The Linear-mode vested amount exactly as the specification states it
(§4.1): zero before `cliffEnd = start + cliff`; `totalAmount` from
`end = start + duration`; otherwise
`floor(totalAmount * (now - cliffEnd) / (end - cliffEnd))`.  Written from the
spec's words, to be compared against the source's
`MonthVesting.getClaimableAmount`. -/
def linearVestedSpec (s : MonthVesting.Schedule) (now : Nat) : Nat :=
  let cliffT := s.start + s.cliffMonths * SECONDS_PER_MONTH
  let endT := s.start + s.durationMonths * SECONDS_PER_MONTH
  if now < cliffT then 0
  else if endT ≤ now then s.totalAmount
  else s.totalAmount * (now - cliffT) / (endT - cliffT)

/-- Step contract state holding the spec's Step rounding example: one schedule
with `totalAmount = 100`, `duration = 90 days`, `interval = 30 days`,
`cliff = 0`, nothing released yet. -/
def sexSt : StepVesting.State :=
  { nextScheduleId := 1
    schedules := setMap (fun _ => StepVesting.Schedule.empty) 1 ⟨1, 2, 100, 0, 0, 0, 7776000, 2592000, true⟩
    userSchedules := fun _ => [] }

/-- Monthly contract state holding the spec's Linear scenario: one schedule
with `totalAmount = 1000000`, `cliff = 6` months, `duration = 12` months,
`start = 0`, nothing released yet. -/
def mexSt : MonthVesting.State :=
  { nextScheduleId := 1
    schedules := setMap (fun _ => MonthVesting.Schedule.empty) 1 ⟨1, 2, 1000000, 0, 0, 6, 12, true⟩
    customReleases := fun _ => []
    userSchedules := fun _ => [] }

/-- The spec's Linear scenario as a `VestingFactoryB` schedule: `cliff = 6`
months and `duration = 12` months in seconds, fresh and active. -/
def c1Vesting : VestingFactoryB.VestingSchedule :=
  ⟨1, 2, 3, 1000000, 0, 31104000, 15552000, true, 0, 0, ""⟩

/-- The spec's Step rounding example as a `VestingFactoryA` Step schedule:
`totalAmount = 100`, `cliff = 0`, three 30-day months. -/
def c2Sched : VestingFactoryA.Schedule :=
  ⟨2, 100, 0, 0, 0, 3, .step⟩

/-- Monthly contract state with a fresh linear schedule (`totalAmount = 100`,
no cliff, 10 months) used to exhibit the premature-deactivation slip in
`MonthVesting.claim`. -/
def c5State : MonthVesting.State :=
  { nextScheduleId := 1
    schedules := setMap (fun _ => MonthVesting.Schedule.empty) 1 ⟨7, 5, 100, 0, 0, 0, 10, true⟩
    customReleases := fun _ => []
    userSchedules := fun _ => [] }

/-- The state after the beneficiary claims `c5State`'s schedule exactly halfway
through the vesting period. -/
def c5After : MonthVesting.State := MonthVesting.applyClaim c5State 5 1 12960000 true

/-- Step contract state with one claimable schedule (beneficiary `5`), used to
instantiate the claim-processing theorems. -/
def c6State : StepVesting.State :=
  { nextScheduleId := 1
    schedules := setMap (fun _ => StepVesting.Schedule.empty) 1 ⟨1, 5, 100, 0, 0, 0, 7776000, 2592000, true⟩
    userSchedules := fun _ => [] }

/-- The state after the beneficiary claims `c6State`'s schedule at
`now = 3000000` (two matured steps). -/
def c6After : StepVesting.State := StepVesting.applyOp c6State (.doClaim 5 1 3000000 true)

/-- The state after `createSchedulesEqual(token 1, [5,6,7], 100, 0, 90d, 30d)`
from a fresh step contract. -/
def c3After : StepVesting.State :=
  StepVesting.applyOp StepVesting.initState (.createEqual 9 1 [5, 6, 7] 100 0 7776000 2592000 true 1000)

/-- The state after a self-vesting `createSchedule` (caller `5` = beneficiary
`5`) on a fresh monthly contract. -/
def c10After : MonthVesting.State :=
  MonthVesting.applyCreate MonthVesting.initState 5 1 5 100 0 12 [] true 0

/-- The state after `createSchedulesEqual(token 1, [5,6], 100, ...)` issued by
caller `5`, who is also the first recipient, on a fresh step contract. -/
def c10bAfter : StepVesting.State :=
  StepVesting.applyOp StepVesting.initState (.createEqual 5 1 [5, 6] 100 0 7776000 2592000 true 1000)

/-- Locker state after one `lock` (owner `5`, 100 tokens until `t = 50`). -/
def c9Locked : TokenLockerV1.State :=
  TokenLockerV1.applyOp TokenLockerV1.initState (.doLock 5 1 100 50 10 true true)

/-- Locker state after owner `5` withdraws lock `1` from `c9Locked`. -/
def c9After : TokenLockerV1.State :=
  TokenLockerV1.applyOp c9Locked (.doWithdraw 5 1 60 true)

theorem setMap_self {α : Type} (m : Nat → α) (k : Nat) (v : α) : setMap m k v k = v := by
  simp [setMap]

theorem setMap_other {α : Type} (m : Nat → α) (k j : Nat) (v : α) (h : j ≠ k) :
    setMap m k v j = m j := by
  simp [setMap, h]

theorem pushUser_self (m : Nat → List Nat) (u id : Nat) : pushUser m u id u = m u ++ [id] := by
  simp [pushUser]

theorem pushUser_other (m : Nat → List Nat) (u id v : Nat) (h : v ≠ u) :
    pushUser m u id v = m v := by
  simp [pushUser, h]

theorem getD_set_eq (l : List Nat) (i a : Nat) (h : i < l.length) :
    (l.set i a).getD i 0 = a := by
  rw [List.getD_eq_getElem _ _ (by simpa using h), List.getElem_set]
  simp

theorem getD_set_ne (l : List Nat) (i j a : Nat) (h : i ≠ j) :
    (l.set i a).getD j 0 = l.getD j 0 := by
  by_cases hj : j < l.length
  · rw [List.getD_eq_getElem _ _ (by simpa using hj), List.getD_eq_getElem _ _ hj,
      List.getElem_set, if_neg h]
  · have h1 : l.length ≤ j := Nat.le_of_not_lt hj
    rw [List.getD_eq_default _ _ (by simpa using h1), List.getD_eq_default _ _ h1]

theorem getD_dropLast_eq (l : List Nat) (k : Nat) (h : k < l.length - 1) :
    l.dropLast.getD k 0 = l.getD k 0 := by
  have h1 : k < l.dropLast.length := by rw [List.length_dropLast]; omega
  have h2 : k < l.length := by omega
  rw [List.getD_eq_getElem _ _ h1, List.getD_eq_getElem _ _ h2, List.getElem_dropLast]

theorem mem_iff_getD (l : List Nat) (x : Nat) :
    x ∈ l ↔ ∃ k, k < l.length ∧ l.getD k 0 = x := by
  constructor
  · intro h
    obtain ⟨i, hi, he⟩ := List.mem_iff_getElem.mp h
    exact ⟨i, hi, by rw [List.getD_eq_getElem _ _ hi]; exact he⟩
  · rintro ⟨k, hk, he⟩
    rw [List.getD_eq_getElem _ _ hk] at he
    exact he ▸ List.getElem_mem hk

theorem getD_append_lt (l : List Nat) (x k : Nat) (h : k < l.length) :
    (l ++ [x]).getD k 0 = l.getD k 0 := List.getD_append _ _ _ _ h

theorem getD_append_len (l : List Nat) (x : Nat) :
    (l ++ [x]).getD l.length 0 = x := by
  rw [List.getD_append_right _ _ _ _ (Nat.le_refl _)]
  simp

theorem ite_lt_eq_min (a b : Nat) : (if a < b then a else b) = min a b := by
  by_cases h : a < b
  · simp [h, Nat.min_eq_left (Nat.le_of_lt h)]
  · simp [h, Nat.min_eq_right (Nat.le_of_not_lt h)]

theorem step_vested_bound (total steps matured : Nat) (hm : matured ≤ steps) :
    total / steps * matured + min matured (total % steps) ≤ total :=
  calc total / steps * matured + min matured (total % steps)
      ≤ total / steps * steps + total % steps :=
        Nat.add_le_add (Nat.mul_le_mul (Nat.le_refl _) hm) (Nat.min_le_right _ _)
    _ = steps * (total / steps) + total % steps := by rw [Nat.mul_comm]
    _ = total := Nat.div_add_mod total steps

theorem stepVestedSpec_le (s : StepVesting.Schedule) (now : Nat) :
    stepVestedSpec s now ≤ s.totalAmount := by
  unfold stepVestedSpec
  by_cases h : now < s.cliffEnd
  · simp [h]
  · simp only [h, if_false]
    exact step_vested_bound _ _ _ (Nat.min_le_left _ _)

theorem StepVesting.claimable_eq_spec (st : StepVesting.State) (id now : Nat)
    (ha : (st.schedules id).isActive = true) :
    StepVesting.getClaimableAmount st id now
      = stepVestedSpec (st.schedules id) now - (st.schedules id).released := by
  unfold StepVesting.getClaimableAmount stepVestedSpec
  by_cases h0 : (st.schedules id).totalAmount = 0
  · simp [h0, ha]
  · by_cases h1 : now < (st.schedules id).cliffEnd
    · simp [h0, ha, h1]
    · by_cases h2 : (st.schedules id).duration / (st.schedules id).interval = 0
      · simp [h0, ha, h1, h2]
      · have he : (if now ≤ (st.schedules id).cliffEnd then 0
            else now - (st.schedules id).cliffEnd) = now - (st.schedules id).cliffEnd := by
          by_cases h : now ≤ (st.schedules id).cliffEnd
          · simp [h, Nat.sub_eq_zero_of_le h]
          · simp [h]
        simp only [h0, ha, h1, h2, if_false, ite_false, or_self, Bool.true_eq_false, or_false,
          false_or, he, ite_lt_eq_min]
        split
        · next hle => exact (Nat.sub_eq_zero_of_le hle).symm
        · rfl

theorem StepVesting.claimable_ne_zero_active (st : StepVesting.State) (id now : Nat)
    (h : StepVesting.getClaimableAmount st id now ≠ 0) :
    (st.schedules id).isActive = true ∧ (st.schedules id).totalAmount ≠ 0 := by
  by_cases h0 : (st.schedules id).totalAmount = 0 ∨ (st.schedules id).isActive = false
  · exfalso
    apply h
    unfold StepVesting.getClaimableAmount
    simp [h0]
  · push_neg at h0
    exact ⟨by simpa using h0.2, h0.1⟩

theorem StepVesting.released_add_claimable (st : StepVesting.State) (id now : Nat)
    (h : StepVesting.getClaimableAmount st id now ≠ 0) :
    (st.schedules id).released + StepVesting.getClaimableAmount st id now
      = stepVestedSpec (st.schedules id) now := by
  have ha := (StepVesting.claimable_ne_zero_active st id now h).1
  rw [StepVesting.claimable_eq_spec st id now ha] at h ⊢
  omega

/-- C2: for the step-release engine of `src/unnamed/part_003`, whenever the
schedule is active with `totalSteps = duration / interval > 0` and `released`
does not exceed the spec's vested amount, `claimable + released` equals the
spec's Step formula (`stepVestedSpec`: 0 before `cliffEnd`, then
`basePerStep * maturedSteps + min maturedSteps remainder`); the final matured
step reaches exactly `totalAmount`; and the 100/90d/30d example vests
34, 67, 100 at the three steps.  (Amended from the original claim: the
month-based Step variant `VestingFactoryA.vestedAmount` uses plain-floor
rounding instead — see the counterexample.) -/
theorem stepVesting_claimable_spec :
    (∀ (st : StepVesting.State) (id now : Nat),
        (st.schedules id).isActive = true →
        0 < (st.schedules id).totalAmount →
        0 < (st.schedules id).duration / (st.schedules id).interval →
        (st.schedules id).released ≤ stepVestedSpec (st.schedules id) now →
        StepVesting.getClaimableAmount st id now + (st.schedules id).released
          = stepVestedSpec (st.schedules id) now)
    ∧ (∀ (s : StepVesting.Schedule) (now : Nat),
        0 < s.duration / s.interval →
        s.cliffEnd ≤ now →
        s.duration / s.interval ≤ 1 + (now - s.cliffEnd) / s.interval →
        stepVestedSpec s now = s.totalAmount)
    ∧ StepVesting.getClaimableAmount sexSt 1 0 = 34
    ∧ StepVesting.getClaimableAmount sexSt 1 2592000 = 67
    ∧ StepVesting.getClaimableAmount sexSt 1 5184000 = 100 := by
  refine ⟨?_, ?_, rfl, rfl, rfl⟩
  · intro st id now ha _ _ hrel
    rw [StepVesting.claimable_eq_spec st id now ha]
    omega
  · intro s now hsteps hcliff hmat
    unfold stepVestedSpec
    have h1 : ¬ now < s.cliffEnd := Nat.not_lt.mpr hcliff
    have h2 : min (s.duration / s.interval) (1 + (now - s.cliffEnd) / s.interval)
        = s.duration / s.interval := Nat.min_eq_left hmat
    have h3 : s.totalAmount % (s.duration / s.interval) < s.duration / s.interval :=
      Nat.mod_lt _ hsteps
    simp only [h1, if_false, h2]
    rw [Nat.min_eq_right (Nat.le_of_lt h3), Nat.mul_comm, Nat.div_add_mod]

/-- C2 counterexample: the month-based Step variant (`_vestedAmount` of the
first `VestingFactory` in `src/next.config.ts`) does not satisfy the claimed
Step formula.  For `totalAmount = 100`, `cliff = 0`, `duration = 3` months
(so `totalSteps = 3 > 0`), at `now = cliffEnd` the claim's formula gives the
first matured step `floor(100/3)*1 + min 1 (100 mod 3) = 34`, but the code
returns 0. -/
theorem factoryA_step_rounding_cex :
    VestingFactoryA.vestedAmount c2Sched 0 = 0
    ∧ stepVestedSpec (sexSt.schedules 1) 0 = 34
    ∧ VestingFactoryA.vestedAmount c2Sched 0 ≠ stepVestedSpec (sexSt.schedules 1) 0 :=
  ⟨rfl, rfl, by decide⟩

/-- C2 witness: the general part of `stepVesting_claimable_spec` instantiated
at the concrete example state, second matured step. -/
theorem stepVesting_claimable_spec_witness :
    (sexSt.schedules 1).isActive = true
    ∧ StepVesting.getClaimableAmount sexSt 1 2592000 + (sexSt.schedules 1).released
        = stepVestedSpec (sexSt.schedules 1) 2592000 :=
  ⟨rfl, stepVesting_claimable_spec.1 sexSt 1 2592000 rfl (by decide) (by decide) (by decide)⟩

theorem StepVesting.createLoop_ok (caller token base rem startTs cliffEnd dur intv : Nat) :
    ∀ (recips : List Nat) (i : Nat) (st st' : StepVesting.State),
      StepVesting.createLoop caller token base rem startTs cliffEnd dur intv recips i st = .ok st' →
      st'.nextScheduleId = st.nextScheduleId + recips.length
      ∧ (∀ id, id ≤ st.nextScheduleId → st'.schedules id = st.schedules id)
      ∧ (∀ id, st.nextScheduleId + recips.length < id → st'.schedules id = st.schedules id)
      ∧ (∀ j, (hj : j < recips.length) →
          st'.schedules (st.nextScheduleId + 1 + j)
            = ⟨token, recips.get ⟨j, hj⟩, base + (if i + j < rem then 1 else 0), 0,
               startTs, cliffEnd, dur, intv, true⟩) := by
  intro recips
  induction recips with
  | nil =>
    intro i st st' h
    simp only [StepVesting.createLoop] at h
    cases h
    refine ⟨by simp, fun id _ => rfl, fun id _ => rfl, fun j hj => absurd hj (by simp)⟩
  | cons b rest ih =>
    intro i st st' h
    simp only [StepVesting.createLoop] at h
    by_cases hb : b = 0
    · simp [hb] at h
    · simp only [hb, if_false, ite_false] at h
      obtain ⟨h1, h2, h3, h4⟩ := ih (i + 1) _ st' h
      simp only at h1 h2 h3 h4
      refine ⟨by simp [h1, List.length_cons]; omega, ?_, ?_, ?_⟩
      · intro id hid
        rw [h2 id (by omega)]
        simp only [setMap]
        rw [if_neg (by omega)]
      · intro id hid
        rw [h3 id (by simp [List.length_cons] at hid; omega)]
        simp only [setMap]
        rw [if_neg (by simp [List.length_cons] at hid; omega)]
      · intro j hj
        match j with
        | 0 =>
          rw [show st.nextScheduleId + 1 + 0 = st.nextScheduleId + 1 by omega]
          rw [h2 (st.nextScheduleId + 1) (by omega)]
          simp [setMap, Nat.add_zero]
        | Nat.succ k =>
          have hk : k < rest.length := by simp [List.length_cons] at hj; omega
          have := h4 k hk
          rw [show st.nextScheduleId + 1 + (k + 1) = st.nextScheduleId + 1 + 1 + k by omega]
          rw [this]
          have harith : i + 1 + k = i + (k + 1) := by omega
          simp [harith]

theorem sum_base_add_ite (q : Nat) :
    ∀ (n r : Nat), r ≤ n →
      (Finset.range n).sum (fun j => q + (if j < r then 1 else 0)) = n * q + r := by
  intro n
  induction n with
  | zero =>
    intro r hr
    have : r = 0 := Nat.le_zero.mp hr
    simp [this]
  | succ n ih =>
    intro r hr
    by_cases hrn : r ≤ n
    · rw [Finset.sum_range_succ, ih r hrn, if_neg (Nat.not_lt.mpr hrn), Nat.succ_mul]
      omega
    · have hr1 : r = n + 1 := by omega
      subst hr1
      rw [Finset.sum_congr rfl (fun j hj => by
        rw [if_pos (Finset.mem_range.mp hj)])]
      rw [Finset.sum_const, Finset.card_range, smul_eq_mul, Nat.mul_add, Nat.mul_one]

/-- C3: a successful `createSchedulesEqual(token, recipients, totalAmount,
cliff, duration, interval)` call of `src/unnamed/part_003` creates one
independent schedule per recipient: recipient `i` (0-based input order) gets
`totalAmount / n` plus one extra unit iff `i < totalAmount mod n`, all with
`released = 0`, `start = now`, the same cliff end `now + cliff`, duration and
interval; the stored shares sum exactly to `totalAmount`.  Calls with 0 or
more than 20 recipients revert, leaving the store unchanged. -/
theorem createSchedulesEqual_spec :
    (∀ (st : StepVesting.State) (caller token : Nat) (recips : List Nat)
        (total cliff dur intv : Nat) (pullOk : Bool) (now : Nat) (st' : StepVesting.State),
        StepVesting.createSchedulesEqual st caller token recips total cliff dur intv pullOk now
          = .ok st' →
        st'.nextScheduleId = st.nextScheduleId + recips.length
        ∧ (∀ j, (hj : j < recips.length) →
            st'.schedules (st.nextScheduleId + 1 + j)
              = ⟨token, recips.get ⟨j, hj⟩,
                 total / recips.length + (if j < total % recips.length then 1 else 0), 0,
                 now, now + cliff, dur, intv, true⟩)
        ∧ (Finset.range recips.length).sum
            (fun j => (st'.schedules (st.nextScheduleId + 1 + j)).totalAmount) = total)
    ∧ (∀ (st : StepVesting.State) (caller token : Nat) (recips : List Nat)
        (total cliff dur intv : Nat) (pullOk : Bool) (now : Nat),
        recips.length = 0 ∨ 20 < recips.length →
        (∀ st', StepVesting.createSchedulesEqual st caller token recips total cliff dur intv pullOk now
            ≠ .ok st')
        ∧ StepVesting.applyOp st (.createEqual caller token recips total cliff dur intv pullOk now)
            = st) := by
  constructor
  · intro st caller token recips total cliff dur intv pullOk now st' h
    by_cases hA : token = 0 ∨ total = 0
    · simp [StepVesting.createSchedulesEqual, hA] at h
    · by_cases hB : recips.length = 0
      · simp [StepVesting.createSchedulesEqual, hA, hB] at h
      · by_cases hC : 20 < recips.length
        · simp [StepVesting.createSchedulesEqual, hA, hB, hC] at h
        · by_cases hD : dur = 0 ∨ intv = 0 ∨ dur % intv ≠ 0
          · simp [StepVesting.createSchedulesEqual, hA, hB, hC, hD] at h
          · by_cases hE : pullOk = false
            · simp [StepVesting.createSchedulesEqual, hA, hB, hC, hD, hE] at h
            · have h' : StepVesting.createLoop caller token (total / recips.length)
                  (total % recips.length) now (now + cliff) dur intv recips 0 st = .ok st' := by
                simpa [StepVesting.createSchedulesEqual, hA, hB, hC, hD, hE] using h
              obtain ⟨h1, _, _, h4⟩ :=
                StepVesting.createLoop_ok caller token (total / recips.length)
                  (total % recips.length) now (now + cliff) dur intv recips 0 st st' h'
              refine ⟨h1, ?_, ?_⟩
              · intro j hj
                rw [h4 j hj]
                simp [Nat.zero_add]
              · have hmod : total % recips.length ≤ recips.length :=
                  Nat.le_of_lt (Nat.mod_lt _ (Nat.pos_of_ne_zero hB))
                have hrw : (Finset.range recips.length).sum
                    (fun j => (st'.schedules (st.nextScheduleId + 1 + j)).totalAmount)
                    = (Finset.range recips.length).sum
                      (fun j => total / recips.length + (if j < total % recips.length then 1 else 0)) := by
                  apply Finset.sum_congr rfl
                  intro j hj
                  rw [h4 j (Finset.mem_range.mp hj)]
                  simp [Nat.zero_add]
                rw [hrw, sum_base_add_ite (total / recips.length) recips.length
                  (total % recips.length) hmod]
                exact Nat.div_add_mod total recips.length
  · intro st caller token recips total cliff dur intv pullOk now hbad
    have hne : ∀ st', StepVesting.createSchedulesEqual st caller token recips total cliff dur intv
        pullOk now ≠ .ok st' := by
      intro st' hok
      rcases hbad with h0 | h20
      · by_cases hA : token = 0 ∨ total = 0
        · simp [StepVesting.createSchedulesEqual, hA] at hok
        · simp [StepVesting.createSchedulesEqual, hA, h0] at hok
      · by_cases hA : token = 0 ∨ total = 0
        · simp [StepVesting.createSchedulesEqual, hA] at hok
        · have hB : recips.length ≠ 0 := by omega
          simp [StepVesting.createSchedulesEqual, hA, hB, h20] at hok
    refine ⟨hne, ?_⟩
    cases hres : StepVesting.createSchedulesEqual st caller token recips total cliff dur intv
        pullOk now with
    | ok s => exact absurd hres (hne s)
    | error e => simp [StepVesting.applyOp, hres]

/-- C3 witness: `createSchedulesEqual(token 1, [5,6,7], 100, ...)` from a fresh
contract yields shares 34, 33, 33 summing to 100. -/
theorem createSchedulesEqual_spec_witness :
    (c3After.schedules 1).totalAmount = 34
    ∧ (c3After.schedules 2).totalAmount = 33
    ∧ (c3After.schedules 3).totalAmount = 33
    ∧ (Finset.range 3).sum (fun j => (c3After.schedules (1 + j)).totalAmount) = 100 :=
  ⟨rfl, rfl, rfl,
    (createSchedulesEqual_spec.1 StepVesting.initState 9 1 [5, 6, 7] 100 0 7776000 2592000
      true 1000 c3After rfl).2.2⟩

theorem StepVesting.createEqual_ok (st : StepVesting.State) (caller token : Nat)
    (recips : List Nat) (total cliff dur intv : Nat) (pullOk : Bool) (now : Nat)
    (st' : StepVesting.State)
    (h : StepVesting.createSchedulesEqual st caller token recips total cliff dur intv pullOk now
      = .ok st') :
    recips.length ≠ 0
    ∧ st'.nextScheduleId = st.nextScheduleId + recips.length
    ∧ (∀ id, id ≤ st.nextScheduleId → st'.schedules id = st.schedules id)
    ∧ (∀ id, st.nextScheduleId + recips.length < id → st'.schedules id = st.schedules id)
    ∧ (∀ j, (hj : j < recips.length) →
        st'.schedules (st.nextScheduleId + 1 + j)
          = ⟨token, recips.get ⟨j, hj⟩,
             total / recips.length + (if 0 + j < total % recips.length then 1 else 0), 0,
             now, now + cliff, dur, intv, true⟩) := by
  by_cases hA : token = 0 ∨ total = 0
  · simp [StepVesting.createSchedulesEqual, hA] at h
  · by_cases hB : recips.length = 0
    · simp [StepVesting.createSchedulesEqual, hA, hB] at h
    · by_cases hC : 20 < recips.length
      · simp [StepVesting.createSchedulesEqual, hA, hB, hC] at h
      · by_cases hD : dur = 0 ∨ intv = 0 ∨ dur % intv ≠ 0
        · simp [StepVesting.createSchedulesEqual, hA, hB, hC, hD] at h
        · by_cases hE : pullOk = false
          · simp [StepVesting.createSchedulesEqual, hA, hB, hC, hD, hE] at h
          · have h' : StepVesting.createLoop caller token (total / recips.length)
                (total % recips.length) now (now + cliff) dur intv recips 0 st = .ok st' := by
              simpa [StepVesting.createSchedulesEqual, hA, hB, hC, hD, hE] using h
            obtain ⟨h1, h2, h3, h4⟩ :=
              StepVesting.createLoop_ok caller token (total / recips.length)
                (total % recips.length) now (now + cliff) dur intv recips 0 st st' h'
            exact ⟨hB, h1, h2, h3, h4⟩

theorem StepVesting.claim_ok (st : StepVesting.State) (caller id now : Nat) (tOk : Bool)
    (st' : StepVesting.State) (h : StepVesting.claim st caller id now tOk = .ok st') :
    (st.schedules id).totalAmount ≠ 0
    ∧ caller = (st.schedules id).beneficiary
    ∧ StepVesting.getClaimableAmount st id now ≠ 0
    ∧ st' = StepVesting.claimResult st id now := by
  by_cases h0 : (st.schedules id).totalAmount = 0
  · simp [StepVesting.claim, h0] at h
  · by_cases hben : caller = (st.schedules id).beneficiary
    · by_cases hcl : StepVesting.getClaimableAmount st id now = 0
      · simp [StepVesting.claim, h0, hben, hcl] at h
      · cases tOk with
        | false => simp [StepVesting.claim, h0, hben, hcl] at h
        | true =>
          refine ⟨h0, hben, hcl, ?_⟩
          simp [StepVesting.claim, h0, hben, hcl] at h
          exact h.symm
    · simp [StepVesting.claim, h0, hben] at h

theorem StepVesting.claimable_le_remaining (st : StepVesting.State) (id now : Nat)
    (h : StepVesting.getClaimableAmount st id now ≠ 0) :
    (st.schedules id).released + StepVesting.getClaimableAmount st id now
      ≤ (st.schedules id).totalAmount := by
  rw [StepVesting.released_add_claimable st id now h]
  exact stepVestedSpec_le _ _

theorem StepVesting.claimResult_schedules_self (st : StepVesting.State) (id now : Nat) :
    (StepVesting.claimResult st id now).schedules id
      = StepVesting.claimedSchedule (st.schedules id) (StepVesting.getClaimableAmount st id now) := by
  simp [StepVesting.claimResult, setMap]

theorem StepVesting.claimResult_schedules_other (st : StepVesting.State) (id now j : Nat)
    (h : j ≠ id) :
    (StepVesting.claimResult st id now).schedules j = st.schedules j := by
  simp [StepVesting.claimResult, setMap, h]

theorem StepVesting.applyOp_released_mono (st : StepVesting.State) (op : StepVesting.Op)
    (hg : StepVesting.GoodIds st) (id : Nat) :
    (st.schedules id).released ≤ ((StepVesting.applyOp st op).schedules id).released := by
  cases op with
  | createEqual caller token recips total cliff dur intv pullOk now =>
    cases hres : StepVesting.createSchedulesEqual st caller token recips total cliff dur intv
        pullOk now with
    | error e => simp [StepVesting.applyOp, hres]
    | ok s' =>
      simp only [StepVesting.applyOp, hres]
      obtain ⟨_, _, h2, h3, h4⟩ :=
        StepVesting.createEqual_ok st caller token recips total cliff dur intv pullOk now s' hres
      by_cases hlo : id ≤ st.nextScheduleId
      · rw [h2 id hlo]
      · by_cases hhi : st.nextScheduleId + recips.length < id
        · rw [h3 id hhi]
        · have hj : id - st.nextScheduleId - 1 < recips.length := by omega
          have hid : id = st.nextScheduleId + 1 + (id - st.nextScheduleId - 1) := by omega
          rw [hid, h4 _ hj]
          have : st.schedules (st.nextScheduleId + 1 + (id - st.nextScheduleId - 1))
              = StepVesting.Schedule.empty := hg _ (by omega)
          rw [this]
          exact Nat.le_refl 0
  | doClaim caller cid cnow tOk =>
    cases hres : StepVesting.claim st caller cid cnow tOk with
    | error e => simp [StepVesting.applyOp, hres]
    | ok s' =>
      simp only [StepVesting.applyOp, hres]
      obtain ⟨_, _, _, h4⟩ := StepVesting.claim_ok st caller cid cnow tOk s' hres
      subst h4
      by_cases hid : id = cid
      · subst hid
        rw [StepVesting.claimResult_schedules_self]
        exact Nat.le_add_right _ _
      · rw [StepVesting.claimResult_schedules_other st cid cnow id hid]

theorem StepVesting.applyOp_inv (st : StepVesting.State) (op : StepVesting.Op)
    (hI : ∀ id, (st.schedules id).released ≤ (st.schedules id).totalAmount) (id : Nat) :
    ((StepVesting.applyOp st op).schedules id).released
      ≤ ((StepVesting.applyOp st op).schedules id).totalAmount := by
  cases op with
  | createEqual caller token recips total cliff dur intv pullOk now =>
    cases hres : StepVesting.createSchedulesEqual st caller token recips total cliff dur intv
        pullOk now with
    | error e => simp only [StepVesting.applyOp, hres]; exact hI id
    | ok s' =>
      simp only [StepVesting.applyOp, hres]
      obtain ⟨_, _, h2, h3, h4⟩ :=
        StepVesting.createEqual_ok st caller token recips total cliff dur intv pullOk now s' hres
      by_cases hlo : id ≤ st.nextScheduleId
      · rw [h2 id hlo]; exact hI id
      · by_cases hhi : st.nextScheduleId + recips.length < id
        · rw [h3 id hhi]; exact hI id
        · have hj : id - st.nextScheduleId - 1 < recips.length := by omega
          have hid : id = st.nextScheduleId + 1 + (id - st.nextScheduleId - 1) := by omega
          rw [hid, h4 _ hj]
          exact Nat.zero_le _
  | doClaim caller cid cnow tOk =>
    cases hres : StepVesting.claim st caller cid cnow tOk with
    | error e => simp only [StepVesting.applyOp, hres]; exact hI id
    | ok s' =>
      simp only [StepVesting.applyOp, hres]
      obtain ⟨_, _, h3, h4⟩ := StepVesting.claim_ok st caller cid cnow tOk s' hres
      subst h4
      by_cases hid : id = cid
      · subst hid
        rw [StepVesting.claimResult_schedules_self]
        exact StepVesting.claimable_le_remaining st id cnow h3
      · rw [StepVesting.claimResult_schedules_other st cid cnow id hid]
        exact hI id

theorem StepVesting.goodIds_applyOp (st : StepVesting.State) (op : StepVesting.Op)
    (hg : StepVesting.GoodIds st) : StepVesting.GoodIds (StepVesting.applyOp st op) := by
  cases op with
  | createEqual caller token recips total cliff dur intv pullOk now =>
    cases hres : StepVesting.createSchedulesEqual st caller token recips total cliff dur intv
        pullOk now with
    | error e => simp only [StepVesting.applyOp, hres]; exact hg
    | ok s' =>
      simp only [StepVesting.applyOp, hres]
      obtain ⟨_, h1, _, h3, _⟩ :=
        StepVesting.createEqual_ok st caller token recips total cliff dur intv pullOk now s' hres
      intro id hid
      rw [h1] at hid
      rw [h3 id hid]
      exact hg id (by omega)
  | doClaim caller cid cnow tOk =>
    cases hres : StepVesting.claim st caller cid cnow tOk with
    | error e => simp only [StepVesting.applyOp, hres]; exact hg
    | ok s' =>
      simp only [StepVesting.applyOp, hres]
      obtain ⟨h1, _, _, h4⟩ := StepVesting.claim_ok st caller cid cnow tOk s' hres
      subst h4
      intro id hid
      have hid' : st.nextScheduleId < id := hid
      by_cases hcid : id = cid
      · subst hcid
        exact absurd (congrArg StepVesting.Schedule.totalAmount (hg id hid')) (by simpa using h1)
      · rw [StepVesting.claimResult_schedules_other st cid cnow id hcid]
        exact hg id hid'

theorem StepVesting.goodIds_run (ops : List StepVesting.Op) :
    StepVesting.GoodIds (StepVesting.run StepVesting.initState ops) := by
  have base : StepVesting.GoodIds StepVesting.initState := fun id _ => rfl
  have gen : ∀ (ops : List StepVesting.Op) (st : StepVesting.State), StepVesting.GoodIds st →
      StepVesting.GoodIds (StepVesting.run st ops) := by
    intro ops
    induction ops with
    | nil => intro st hst; exact hst
    | cons op rest ih =>
      intro st hst
      exact ih (StepVesting.applyOp st op) (StepVesting.goodIds_applyOp st op hst)
  exact gen ops StepVesting.initState base

theorem StepVesting.releasedInv_run (ops : List StepVesting.Op) (id : Nat) :
    ((StepVesting.run StepVesting.initState ops).schedules id).released
      ≤ ((StepVesting.run StepVesting.initState ops).schedules id).totalAmount := by
  have base : ∀ id, ((StepVesting.initState).schedules id).released
      ≤ ((StepVesting.initState).schedules id).totalAmount := fun _ => Nat.le_refl 0
  have gen : ∀ (ops : List StepVesting.Op) (st : StepVesting.State),
      (∀ id, (st.schedules id).released ≤ (st.schedules id).totalAmount) →
      ∀ id, ((StepVesting.run st ops).schedules id).released
        ≤ ((StepVesting.run st ops).schedules id).totalAmount := by
    intro ops
    induction ops with
    | nil => intro st hst; exact hst
    | cons op rest ih =>
      intro st hst
      exact ih (StepVesting.applyOp st op) (StepVesting.applyOp_inv st op hst)
  exact gen ops StepVesting.initState base id

/-- C4: in the step-release contract of `src/unnamed/part_003`, `released` is
0 on every freshly created schedule, never decreases across any transaction
applied to a reachable state, never exceeds `totalAmount` in any reachable
state, and each successful claim adds exactly the claimable amount, which is
at most `totalAmount - released`. -/
theorem released_invariant_spec :
    (∀ (st : StepVesting.State) (caller token : Nat) (recips : List Nat)
        (total cliff dur intv : Nat) (pullOk : Bool) (now : Nat) (st' : StepVesting.State),
        StepVesting.createSchedulesEqual st caller token recips total cliff dur intv pullOk now
          = .ok st' →
        ∀ j, (hj : j < recips.length) →
          (st'.schedules (st.nextScheduleId + 1 + j)).released = 0)
    ∧ (∀ (ops : List StepVesting.Op) (op : StepVesting.Op) (id : Nat),
        ((StepVesting.run StepVesting.initState ops).schedules id).released
          ≤ ((StepVesting.applyOp (StepVesting.run StepVesting.initState ops) op).schedules id).released)
    ∧ (∀ (ops : List StepVesting.Op) (id : Nat),
        ((StepVesting.run StepVesting.initState ops).schedules id).released
          ≤ ((StepVesting.run StepVesting.initState ops).schedules id).totalAmount)
    ∧ (∀ (st : StepVesting.State) (caller id now : Nat) (tOk : Bool) (st' : StepVesting.State),
        StepVesting.claim st caller id now tOk = .ok st' →
        (st'.schedules id).released
            = (st.schedules id).released + StepVesting.getClaimableAmount st id now
        ∧ StepVesting.getClaimableAmount st id now
            ≤ (st.schedules id).totalAmount - (st.schedules id).released) := by
  refine ⟨?_, ?_, ?_, ?_⟩
  · intro st caller token recips total cliff dur intv pullOk now st' h j hj
    obtain ⟨_, _, _, _, h4⟩ :=
      StepVesting.createEqual_ok st caller token recips total cliff dur intv pullOk now st' h
    rw [h4 j hj]
  · intro ops op id
    exact StepVesting.applyOp_released_mono _ op (StepVesting.goodIds_run ops) id
  · intro ops id
    exact StepVesting.releasedInv_run ops id
  · intro st caller id now tOk st' h
    obtain ⟨_, _, h3, h4⟩ := StepVesting.claim_ok st caller id now tOk st' h
    have hle := StepVesting.claimable_le_remaining st id now h3
    subst h4
    constructor
    · rw [StepVesting.claimResult_schedules_self]
      rfl
    · omega

/-- C4 witness: a concrete successful claim (state `c6State`, two matured
steps) adds exactly the claimable amount, bounded by the remaining balance. -/
theorem released_invariant_spec_witness :
    (c6After.schedules 1).released
        = (c6State.schedules 1).released + StepVesting.getClaimableAmount c6State 1 3000000
    ∧ StepVesting.getClaimableAmount c6State 1 3000000
        ≤ (c6State.schedules 1).totalAmount - (c6State.schedules 1).released :=
  released_invariant_spec.2.2.2 c6State 5 1 3000000 true c6After rfl

theorem MonthVesting.claimable_eq_linearSpec (st : MonthVesting.State) (id now : Nat)
    (ha : (st.schedules id).isActive = true) (hc : st.customReleases id = []) :
    MonthVesting.getClaimableAmount st id now
      = linearVestedSpec (st.schedules id) now - (st.schedules id).released := by
  unfold MonthVesting.getClaimableAmount linearVestedSpec
  by_cases h0 : (st.schedules id).totalAmount = 0
  · simp [h0, ha, hc]
  · by_cases h1 : now < (st.schedules id).start + (st.schedules id).cliffMonths * SECONDS_PER_MONTH
    · simp [h0, ha, hc, h1]
    · by_cases h2 : (st.schedules id).start + (st.schedules id).durationMonths * SECONDS_PER_MONTH ≤ now
      · simp [h0, ha, hc, h1, h2]
      · simp only [h0, ha, hc, h1, h2, if_false, ite_false, List.length_nil, ne_eq,
          not_true_eq_false, not_false_eq_true, or_self, Bool.true_eq_false, or_false, false_or]
        split
        · next hle => exact (Nat.sub_eq_zero_of_le hle).symm
        · rfl

/-- C1: for the cliff-anchored linear engine of
`src/remix-contracts/PlasmaticVesting.sol` (no custom entries), whenever the
schedule is active and `released` does not exceed the spec's vested amount,
`claimable + released` equals the spec's Linear formula (`linearVestedSpec`:
0 before `cliffEnd`, `totalAmount` from `end`, else
`floor(totalAmount * (now - cliffEnd) / (end - cliffEnd))`); and the
1,000,000 / 6-month-cliff / 12-month scenario gives claimable 0, 500000,
1000000 at start+6mo, start+9mo, start+12mo.  (Amended from the original
claim: `VestingFactoryB.getReleasableAmount` interpolates from `start` over
the whole duration instead — see the counterexample.) -/
theorem monthVesting_linear_claimable_spec :
    (∀ (st : MonthVesting.State) (id now : Nat),
        (st.schedules id).isActive = true →
        0 < (st.schedules id).totalAmount →
        st.customReleases id = [] →
        (st.schedules id).released ≤ linearVestedSpec (st.schedules id) now →
        MonthVesting.getClaimableAmount st id now + (st.schedules id).released
          = linearVestedSpec (st.schedules id) now)
    ∧ MonthVesting.getClaimableAmount mexSt 1 15552000 = 0
    ∧ MonthVesting.getClaimableAmount mexSt 1 23328000 = 500000
    ∧ MonthVesting.getClaimableAmount mexSt 1 31104000 = 1000000 := by
  refine ⟨?_, rfl, rfl, rfl⟩
  intro st id now ha _ hc hrel
  rw [MonthVesting.claimable_eq_linearSpec st id now ha hc]
  omega

/-- C1 counterexample: `getReleasableAmount` of the second `VestingFactory` in
`src/next.config.ts` does not follow the claimed cliff-anchored formula.  On
the claim's own scenario (`totalAmount = 1000000`, `cliff = 6` months,
`duration = 12` months, fresh schedule, `now = start + 9` months) the claimed
formula gives 500000 but the code returns 750000, because it interpolates
from `start` over the whole `duration`. -/
theorem factoryB_linear_from_start_cex :
    VestingFactoryB.getReleasableAmount c1Vesting 23328000 = 750000
    ∧ linearVestedSpec (mexSt.schedules 1) 23328000 = 500000
    ∧ VestingFactoryB.getReleasableAmount c1Vesting 23328000
        ≠ linearVestedSpec (mexSt.schedules 1) 23328000 :=
  ⟨rfl, rfl, by decide⟩

/-- C1 witness: the general part of `monthVesting_linear_claimable_spec`
instantiated at the concrete scenario state, `now = start + 9` months. -/
theorem monthVesting_linear_claimable_spec_witness :
    (mexSt.schedules 1).isActive = true
    ∧ MonthVesting.getClaimableAmount mexSt 1 23328000 + (mexSt.schedules 1).released
        = linearVestedSpec (mexSt.schedules 1) 23328000 :=
  ⟨rfl, monthVesting_linear_claimable_spec.1 mexSt 1 23328000 rfl (by decide) rfl (by decide)⟩

theorem stepVestedSpec_claimed (s : StepVesting.Schedule) (a now : Nat) :
    stepVestedSpec (StepVesting.claimedSchedule s a) now = stepVestedSpec s now := rfl

theorem StepVesting.claimResult_claimable_zero (st : StepVesting.State) (id now : Nat)
    (hcl : StepVesting.getClaimableAmount st id now ≠ 0) :
    StepVesting.getClaimableAmount (StepVesting.claimResult st id now) id now = 0 := by
  by_cases hact' : ((StepVesting.claimResult st id now).schedules id).isActive = true
  · rw [StepVesting.claimable_eq_spec _ id now hact']
    rw [StepVesting.claimResult_schedules_self]
    rw [stepVestedSpec_claimed]
    have hrel : (StepVesting.claimedSchedule (st.schedules id)
        (StepVesting.getClaimableAmount st id now)).released
        = stepVestedSpec (st.schedules id) now := by
      show (st.schedules id).released + StepVesting.getClaimableAmount st id now = _
      exact StepVesting.released_add_claimable st id now hcl
    rw [hrel]
    exact Nat.sub_self _
  · have hfalse : ((StepVesting.claimResult st id now).schedules id).isActive = false := by
      cases hb : ((StepVesting.claimResult st id now).schedules id).isActive
      · rfl
      · exact absurd hb hact'
    unfold StepVesting.getClaimableAmount
    simp [hfalse]

theorem MonthVesting.claimableM_ne_zero_active (st : MonthVesting.State) (id now : Nat)
    (h : MonthVesting.getClaimableAmount st id now ≠ 0) :
    (st.schedules id).isActive = true ∧ (st.schedules id).totalAmount ≠ 0 := by
  by_cases h0 : (st.schedules id).totalAmount = 0 ∨ (st.schedules id).isActive = false
  · exfalso
    apply h
    unfold MonthVesting.getClaimableAmount
    simp [h0]
  · push_neg at h0
    exact ⟨by simpa using h0.2, h0.1⟩

theorem MonthVesting.releasedM_add_claimable (st : MonthVesting.State) (id now : Nat)
    (h : MonthVesting.getClaimableAmount st id now ≠ 0) (hc : st.customReleases id = []) :
    (st.schedules id).released + MonthVesting.getClaimableAmount st id now
      = linearVestedSpec (st.schedules id) now := by
  have ha := (MonthVesting.claimableM_ne_zero_active st id now h).1
  rw [MonthVesting.claimable_eq_linearSpec st id now ha hc] at h ⊢
  omega

theorem linearVestedSpec_claimed (st : MonthVesting.State) (id now now2 : Nat) :
    linearVestedSpec (MonthVesting.claimedSchedule st id now) now2
      = linearVestedSpec (st.schedules id) now2 := rfl

theorem MonthVesting.claimResultM_schedules_self (st : MonthVesting.State) (id now : Nat) :
    (MonthVesting.claimResult st id now).schedules id
      = MonthVesting.claimedSchedule st id now := by
  simp [MonthVesting.claimResult, setMap]

theorem MonthVesting.claimResultM_custom_self (st : MonthVesting.State) (id now : Nat) :
    (MonthVesting.claimResult st id now).customReleases id
      = MonthVesting.claimedCustom (st.customReleases id) now := by
  simp [MonthVesting.claimResult, setMap]

theorem MonthVesting.claimedCustom_fold_zero (now : Nat) :
    ∀ (rs : List MonthVesting.CustomRelease) (acc : Nat),
      (MonthVesting.claimedCustom rs now).foldl
        (fun acc r => if r.claimed = false ∧ r.timestamp ≤ now then acc + r.amount else acc) acc
      = acc := by
  intro rs
  induction rs with
  | nil => intro acc; rfl
  | cons r rest ih =>
    intro acc
    simp only [MonthVesting.claimedCustom, List.map_cons, List.foldl_cons]
    by_cases hc : r.claimed = false ∧ r.timestamp ≤ now
    · rw [if_pos hc, if_neg (by simp)]
      exact ih acc
    · rw [if_neg hc, if_neg hc]
      exact ih acc

theorem MonthVesting.claimResultM_claimAmount_zero (st : MonthVesting.State) (id now : Nat)
    (hA : MonthVesting.claimAmount st id now ≠ 0) :
    MonthVesting.claimAmount (MonthVesting.claimResult st id now) id now = 0 := by
  by_cases hrs : (st.customReleases id).length = 0
  · have hrsnil : st.customReleases id = [] := List.length_eq_zero.mp hrs
    have hAeq : MonthVesting.claimAmount st id now
        = MonthVesting.getClaimableAmount st id now := by
      simp [MonthVesting.claimAmount, hrs]
    have hcustom' : (MonthVesting.claimResult st id now).customReleases id = [] := by
      rw [MonthVesting.claimResultM_custom_self, hrsnil]
      rfl
    have hA2 : MonthVesting.claimAmount (MonthVesting.claimResult st id now) id now
        = MonthVesting.getClaimableAmount (MonthVesting.claimResult st id now) id now := by
      simp [MonthVesting.claimAmount, hcustom']
    rw [hA2]
    rw [hAeq] at hA
    by_cases hact' : ((MonthVesting.claimResult st id now).schedules id).isActive = true
    · rw [MonthVesting.claimable_eq_linearSpec _ id now hact' hcustom']
      rw [MonthVesting.claimResultM_schedules_self]
      rw [linearVestedSpec_claimed]
      have hrel : (MonthVesting.claimedSchedule st id now).released
          = linearVestedSpec (st.schedules id) now := by
        show MonthVesting.claimReleased st id now = _
        have hcr : MonthVesting.claimReleased st id now
            = (st.schedules id).released + MonthVesting.claimAmount st id now := by
          simp [MonthVesting.claimReleased, hrs]
        rw [hcr, hAeq]
        exact MonthVesting.releasedM_add_claimable st id now hA hrsnil
      rw [hrel]
      exact Nat.sub_self _
    · have hf : ((MonthVesting.claimResult st id now).schedules id).isActive = false := by
        cases hb : ((MonthVesting.claimResult st id now).schedules id).isActive
        · rfl
        · exact absurd hb hact'
      unfold MonthVesting.getClaimableAmount
      simp [hf]
  · have hlen' : ¬ ((MonthVesting.claimResult st id now).customReleases id).length = 0 := by
      rw [MonthVesting.claimResultM_custom_self]
      simpa [MonthVesting.claimedCustom] using hrs
    have hA2 : MonthVesting.claimAmount (MonthVesting.claimResult st id now) id now
        = ((MonthVesting.claimResult st id now).customReleases id).foldl
            (fun acc r => if r.claimed = false ∧ r.timestamp ≤ now then acc + r.amount else acc)
            0 := by
      simp [MonthVesting.claimAmount, hlen']
    rw [hA2, MonthVesting.claimResultM_custom_self]
    exact MonthVesting.claimedCustom_fold_zero now (st.customReleases id) 0

theorem MonthVesting.claim_ok_inv (st : MonthVesting.State) (caller id now : Nat) (tOk : Bool)
    (st' : MonthVesting.State) (h : MonthVesting.claim st caller id now tOk = .ok st') :
    (st.schedules id).totalAmount ≠ 0
    ∧ caller = (st.schedules id).beneficiary
    ∧ MonthVesting.claimAmount st id now ≠ 0
    ∧ st' = MonthVesting.claimResult st id now := by
  by_cases h0 : (st.schedules id).totalAmount = 0
  · simp [MonthVesting.claim, h0] at h
  · by_cases hben : caller = (st.schedules id).beneficiary
    · by_cases hA : MonthVesting.claimAmount st id now = 0
      · simp [MonthVesting.claim, h0, hben, hA] at h
      · cases tOk with
        | false => simp [MonthVesting.claim, h0, hben, hA] at h
        | true =>
          by_cases hU : (st.schedules id).totalAmount
              < MonthVesting.claimReleased st id now + MonthVesting.claimAmount st id now
          · simp [MonthVesting.claim, h0, hben, hA, hU] at h
          · refine ⟨h0, hben, hA, ?_⟩
            simp [MonthVesting.claim, h0, hben, hA, hU] at h
            exact h.symm
    · simp [MonthVesting.claim, h0, hben] at h

/-- C6: `claim` fails `InvalidSchedule` when the stored schedule has
`totalAmount = 0` (i.e. it does not exist); otherwise fails `NotBeneficiary`
when the caller is not the beneficiary; otherwise fails `NothingToRelease`
when the amount claimable now is 0; and a second `claim` immediately after a
successful one (same `now`) fails `NothingToRelease` — proved for the step
contract (`src/unnamed/part_003`, first four conjuncts) and for the monthly
contract (`src/remix-contracts/PlasmaticVesting.sol`, last four conjuncts,
whose claim pays `claimAmount`: the linear claimable amount, or the sum of
due unclaimed custom entries). -/
theorem claim_error_order_spec :
    (∀ (st : StepVesting.State) (caller id now : Nat) (tOk : Bool),
        (st.schedules id).totalAmount = 0 →
        StepVesting.claim st caller id now tOk = .error .invalidSchedule)
    ∧ (∀ (st : StepVesting.State) (caller id now : Nat) (tOk : Bool),
        (st.schedules id).totalAmount ≠ 0 →
        caller ≠ (st.schedules id).beneficiary →
        StepVesting.claim st caller id now tOk = .error .notBeneficiary)
    ∧ (∀ (st : StepVesting.State) (caller id now : Nat) (tOk : Bool),
        (st.schedules id).totalAmount ≠ 0 →
        caller = (st.schedules id).beneficiary →
        StepVesting.getClaimableAmount st id now = 0 →
        StepVesting.claim st caller id now tOk = .error .nothingToRelease)
    ∧ (∀ (st : StepVesting.State) (caller id now : Nat) (tOk : Bool) (st' : StepVesting.State),
        StepVesting.claim st caller id now tOk = .ok st' →
        StepVesting.claim st' caller id now true = .error .nothingToRelease)
    ∧ (∀ (st : MonthVesting.State) (caller id now : Nat) (tOk : Bool),
        (st.schedules id).totalAmount = 0 →
        MonthVesting.claim st caller id now tOk = .error .invalidSchedule)
    ∧ (∀ (st : MonthVesting.State) (caller id now : Nat) (tOk : Bool),
        (st.schedules id).totalAmount ≠ 0 →
        caller ≠ (st.schedules id).beneficiary →
        MonthVesting.claim st caller id now tOk = .error .notBeneficiary)
    ∧ (∀ (st : MonthVesting.State) (caller id now : Nat) (tOk : Bool),
        (st.schedules id).totalAmount ≠ 0 →
        caller = (st.schedules id).beneficiary →
        MonthVesting.claimAmount st id now = 0 →
        MonthVesting.claim st caller id now tOk = .error .nothingToRelease)
    ∧ (∀ (st : MonthVesting.State) (caller id now : Nat) (tOk : Bool) (st' : MonthVesting.State),
        MonthVesting.claim st caller id now tOk = .ok st' →
        MonthVesting.claim st' caller id now true = .error .nothingToRelease) := by
  refine ⟨?_, ?_, ?_, ?_, ?_, ?_, ?_, ?_⟩
  · intro st caller id now tOk h0
    simp [StepVesting.claim, h0]
  · intro st caller id now tOk h0 hben
    simp [StepVesting.claim, h0, hben]
  · intro st caller id now tOk h0 hben hcl
    simp [StepVesting.claim, h0, hben, hcl]
  · intro st caller id now tOk st' h
    obtain ⟨h0, hben, hcl, h4⟩ := StepVesting.claim_ok st caller id now tOk st' h
    subst h4
    have hsched := StepVesting.claimResult_schedules_self st id now
    have h0' : ((StepVesting.claimResult st id now).schedules id).totalAmount ≠ 0 := by
      rw [hsched]; exact h0
    have hben' : caller = ((StepVesting.claimResult st id now).schedules id).beneficiary := by
      rw [hsched]; exact hben
    have hcl' := StepVesting.claimResult_claimable_zero st id now hcl
    simp [StepVesting.claim, h0', hben', hcl']
  · intro st caller id now tOk h0
    simp [MonthVesting.claim, h0]
  · intro st caller id now tOk h0 hben
    simp [MonthVesting.claim, h0, hben]
  · intro st caller id now tOk h0 hben hA
    simp [MonthVesting.claim, h0, hben, hA]
  · intro st caller id now tOk st' h
    obtain ⟨h0, hben, hA, h4⟩ := MonthVesting.claim_ok_inv st caller id now tOk st' h
    subst h4
    have hsched := MonthVesting.claimResultM_schedules_self st id now
    have h0' : ((MonthVesting.claimResult st id now).schedules id).totalAmount ≠ 0 := by
      rw [hsched]; exact h0
    have hben' : caller = ((MonthVesting.claimResult st id now).schedules id).beneficiary := by
      rw [hsched]; exact hben
    have hA' := MonthVesting.claimResultM_claimAmount_zero st id now hA
    simp [MonthVesting.claim, h0', hben', hA']

/-- C6 witness: on the concrete states `c6State` (step contract) and `c5State`
(monthly contract), a second immediate claim after a successful one fails
`NothingToRelease`. -/
theorem claim_error_order_spec_witness :
    StepVesting.claim c6After 5 1 3000000 true = .error .nothingToRelease
    ∧ MonthVesting.claim c5After 5 1 12960000 true = .error .nothingToRelease :=
  ⟨claim_error_order_spec.2.2.2.1 c6State 5 1 3000000 true c6After rfl,
   claim_error_order_spec.2.2.2.2.2.2.2 c5State 5 1 12960000 true c5After rfl⟩

/-- C7: if a `claim` would succeed but the outbound token transfer fails, the
call reverts with `TransferFailed` and the storage — `released`, the custom
entries' `claimed` flags and `isActive` — is exactly the pre-call state, in
both the step contract (`src/unnamed/part_003`) and the monthly contract
(`src/remix-contracts/PlasmaticVesting.sol`). -/
theorem claim_transfer_rollback_spec :
    (∀ (st : StepVesting.State) (caller id now : Nat) (st' : StepVesting.State),
        StepVesting.claim st caller id now true = .ok st' →
        StepVesting.claim st caller id now false = .error .transferFailed
        ∧ StepVesting.applyOp st (.doClaim caller id now false) = st)
    ∧ (∀ (st : MonthVesting.State) (caller id now : Nat) (st' : MonthVesting.State),
        MonthVesting.claim st caller id now true = .ok st' →
        MonthVesting.claim st caller id now false = .error .transferFailed
        ∧ MonthVesting.applyClaim st caller id now false = st) := by
  constructor
  · intro st caller id now st' h
    obtain ⟨h0, hben, hcl, _⟩ := StepVesting.claim_ok st caller id now true st' h
    have herr : StepVesting.claim st caller id now false = .error .transferFailed := by
      simp [StepVesting.claim, h0, hben, hcl]
    exact ⟨herr, by simp [StepVesting.applyOp, herr]⟩
  · intro st caller id now st' h
    obtain ⟨h0, hben, hA, _⟩ := MonthVesting.claim_ok_inv st caller id now true st' h
    have herr : MonthVesting.claim st caller id now false = .error .transferFailed := by
      simp [MonthVesting.claim, h0, hben, hA]
    exact ⟨herr, by simp [MonthVesting.applyClaim, herr]⟩

/-- C7 witness: concrete otherwise-successful claims on both contracts abort
with `TransferFailed` and leave the state unchanged when the transfer fails. -/
theorem claim_transfer_rollback_spec_witness :
    (StepVesting.claim c6State 5 1 3000000 false = .error .transferFailed
      ∧ StepVesting.applyOp c6State (.doClaim 5 1 3000000 false) = c6State)
    ∧ (MonthVesting.claim c5State 5 1 12960000 false = .error .transferFailed
      ∧ MonthVesting.applyClaim c5State 5 1 12960000 false = c5State) :=
  ⟨claim_transfer_rollback_spec.1 c6State 5 1 3000000 c6After rfl,
   claim_transfer_rollback_spec.2 c5State 5 1 12960000 c5After rfl⟩

/-- C5 (code bug): in `PlasmaticVesting.sol`, a successful claim of exactly
half the schedule (fresh linear schedule of 100 over 10 months, claimed at
month 5) leaves `released = 50 < 100 = totalAmount` yet sets
`isActive = false`, because the deactivation test `s.released + amount >=
s.totalAmount` runs after `s.released += amount` and so double-counts
`amount`.  This observable state violates `isActive ⇔ released < totalAmount`;
the step contract (`src/unnamed/part_003`) checks the updated `released`
alone and satisfies the invariant. -/
theorem monthVesting_isActive_bug :
    MonthVesting.claim c5State 5 1 12960000 true = .ok c5After
    ∧ (c5After.schedules 1).released = 50
    ∧ (c5After.schedules 1).totalAmount = 100
    ∧ (c5After.schedules 1).isActive = false
    ∧ (c5After.schedules 1).released < (c5After.schedules 1).totalAmount :=
  ⟨rfl, rfl, rfl, rfl, by decide⟩

theorem MonthVesting.checkCustomAux_ok :
    ∀ (l : List MonthVesting.CustomRelease) (prev acc m : Nat),
      MonthVesting.checkCustomAux l prev acc = .ok m →
      (∀ r ∈ l, r.claimed = false)
      ∧ l.Chain' (fun a b => a.timestamp < b.timestamp)
      ∧ (∀ r ∈ l.head?, prev < r.timestamp)
      ∧ m = acc + (l.map MonthVesting.CustomRelease.amount).sum := by
  intro l
  induction l with
  | nil =>
    intro prev acc m h
    simp only [MonthVesting.checkCustomAux] at h
    refine ⟨by simp, List.chain'_nil, by simp, ?_⟩
    cases h
    simp
  | cons r rest ih =>
    intro prev acc m h
    simp only [MonthVesting.checkCustomAux] at h
    by_cases hc : r.claimed = true
    · simp [hc] at h
    · by_cases ht : r.timestamp ≤ prev
      · simp [hc, ht] at h
      · simp only [hc, ht, if_false, ite_false] at h
        obtain ⟨ha, hb, hh, hm⟩ := ih r.timestamp (acc + r.amount) m h
        have hcf : r.claimed = false := by
          cases hcb : r.claimed
          · rfl
          · exact absurd hcb hc
        refine ⟨?_, ?_, ?_, ?_⟩
        · intro x hx
          rcases List.mem_cons.mp hx with hx | hx
          · subst hx; exact hcf
          · exact ha x hx
        · exact List.chain'_cons'.mpr ⟨hh, hb⟩
        · intro x hx
          simp only [List.head?_cons, Option.mem_def, Option.some.injEq] at hx
          subst hx
          omega
        · simp only [List.map_cons, List.sum_cons]
          omega

theorem MonthVesting.checkCustom_ok (l : List MonthVesting.CustomRelease) (m : Nat)
    (h : MonthVesting.checkCustom l = .ok m) :
    (∀ r ∈ l, r.claimed = false)
    ∧ l.Chain' (fun a b => a.timestamp < b.timestamp)
    ∧ m = (l.map MonthVesting.CustomRelease.amount).sum := by
  cases l with
  | nil =>
    simp only [MonthVesting.checkCustom] at h
    refine ⟨by simp, List.chain'_nil, ?_⟩
    cases h
    simp
  | cons r rest =>
    simp only [MonthVesting.checkCustom] at h
    by_cases hc : r.claimed = true
    · simp [hc] at h
    · simp only [hc, if_false, ite_false] at h
      obtain ⟨ha, hb, hh, hm⟩ := MonthVesting.checkCustomAux_ok rest r.timestamp r.amount m h
      have hcf : r.claimed = false := by
        cases hcb : r.claimed
        · rfl
        · exact absurd hcb hc
      refine ⟨?_, List.chain'_cons'.mpr ⟨hh, hb⟩, ?_⟩
      · intro x hx
        rcases List.mem_cons.mp hx with hx | hx
        · subst hx; exact hcf
        · exact ha x hx
      · simp only [List.map_cons, List.sum_cons]
        omega

theorem MonthVesting.checkCustomAux_error :
    ∀ (l : List MonthVesting.CustomRelease) (prev acc : Nat) (e : VErr),
      MonthVesting.checkCustomAux l prev acc = .error e → e = .invalidCustomSchedule := by
  intro l
  induction l with
  | nil =>
    intro prev acc e h
    simp [MonthVesting.checkCustomAux] at h
  | cons r rest ih =>
    intro prev acc e h
    simp only [MonthVesting.checkCustomAux] at h
    by_cases hc : r.claimed = true
    · simp only [hc, if_true, ite_true] at h
      exact (Except.error.inj h).symm
    · by_cases ht : r.timestamp ≤ prev
      · simp only [hc, ht, if_false, ite_false, if_true, ite_true] at h
        exact (Except.error.inj h).symm
      · simp only [hc, ht, if_false, ite_false] at h
        exact ih r.timestamp (acc + r.amount) e h

theorem MonthVesting.checkCustom_error (l : List MonthVesting.CustomRelease) (e : VErr)
    (h : MonthVesting.checkCustom l = .error e) : e = .invalidCustomSchedule := by
  cases l with
  | nil => simp [MonthVesting.checkCustom] at h
  | cons r rest =>
    simp only [MonthVesting.checkCustom] at h
    by_cases hc : r.claimed = true
    · simp only [hc, if_true, ite_true] at h
      exact (Except.error.inj h).symm
    · simp only [hc, if_false, ite_false] at h
      exact MonthVesting.checkCustomAux_error rest r.timestamp r.amount e h

/-- C8: `createSchedule` of `PlasmaticVesting.sol` fails `InvalidParams` on a
zero token, zero beneficiary or zero amount; `InvalidSchedule` on a non-custom
schedule with `duration = 0` or `cliff >= duration`; `InvalidCustomSchedule`
on a custom list with a pre-claimed entry, non-increasing timestamps, or an
amount sum different from `totalAmount`; `TransferFailed` when the inbound
fund pull fails after all checks pass; and every failure leaves the store
(counter and both index pushes included) unchanged. -/
theorem createSchedule_validation_spec :
    (∀ (st : MonthVesting.State) (caller token beneficiary total cliff dur : Nat)
        (custom : List MonthVesting.CustomRelease) (pullOk : Bool) (now : Nat),
        token = 0 ∨ beneficiary = 0 ∨ total = 0 →
        MonthVesting.createSchedule st caller token beneficiary total cliff dur custom pullOk now
          = .error .invalidParams)
    ∧ (∀ (st : MonthVesting.State) (caller token beneficiary total cliff dur : Nat)
        (pullOk : Bool) (now : Nat),
        ¬(token = 0 ∨ beneficiary = 0 ∨ total = 0) →
        dur = 0 ∨ cliff ≥ dur →
        MonthVesting.createSchedule st caller token beneficiary total cliff dur [] pullOk now
          = .error .invalidSchedule)
    ∧ (∀ (st : MonthVesting.State) (caller token beneficiary total cliff dur : Nat)
        (custom : List MonthVesting.CustomRelease) (pullOk : Bool) (now : Nat),
        ¬(token = 0 ∨ beneficiary = 0 ∨ total = 0) →
        custom ≠ [] →
        ((∃ r ∈ custom, r.claimed = true)
          ∨ ¬ custom.Chain' (fun a b => a.timestamp < b.timestamp)
          ∨ (custom.map MonthVesting.CustomRelease.amount).sum ≠ total) →
        MonthVesting.createSchedule st caller token beneficiary total cliff dur custom pullOk now
          = .error .invalidCustomSchedule)
    ∧ (∀ (st : MonthVesting.State) (caller token beneficiary total cliff dur : Nat)
        (custom : List MonthVesting.CustomRelease) (now : Nat),
        ¬(token = 0 ∨ beneficiary = 0 ∨ total = 0) →
        ((custom = [] ∧ ¬(dur = 0 ∨ dur ≤ cliff))
          ∨ (custom ≠ [] ∧ MonthVesting.checkCustom custom = .ok total)) →
        MonthVesting.createSchedule st caller token beneficiary total cliff dur custom false now
          = .error .transferFailed)
    ∧ (∀ (st : MonthVesting.State) (caller token beneficiary total cliff dur : Nat)
        (custom : List MonthVesting.CustomRelease) (pullOk : Bool) (now : Nat) (e : VErr),
        MonthVesting.createSchedule st caller token beneficiary total cliff dur custom pullOk now
          = .error e →
        MonthVesting.applyCreate st caller token beneficiary total cliff dur custom pullOk now
          = st) := by
  refine ⟨?_, ?_, ?_, ?_, ?_⟩
  · intro st caller token beneficiary total cliff dur custom pullOk now hA
    simp [MonthVesting.createSchedule, hA]
  · intro st caller token beneficiary total cliff dur pullOk now hA hD
    have hD' : dur = 0 ∨ dur ≤ cliff := hD
    simp [MonthVesting.createSchedule, hA, hD']
  · intro st caller token beneficiary total cliff dur custom pullOk now hA hne hbad
    have hlen : ¬ custom.length = 0 := by
      simpa using fun h => hne (List.length_eq_zero.mp h)
    cases hcc : MonthVesting.checkCustom custom with
    | error e =>
      have he := MonthVesting.checkCustom_error custom e hcc
      subst he
      simp [MonthVesting.createSchedule, hA, hlen, hcc]
    | ok m =>
      obtain ⟨hall, hchain, hsum⟩ := MonthVesting.checkCustom_ok custom m hcc
      rcases hbad with hb1 | hb2 | hb3
      · obtain ⟨r, hr, hrc⟩ := hb1
        rw [hall r hr] at hrc
        exact absurd hrc (by simp)
      · exact absurd hchain hb2
      · have hm : m ≠ total := by rw [hsum]; exact hb3
        simp [MonthVesting.createSchedule, hA, hlen, hcc, hm]
  · intro st caller token beneficiary total cliff dur custom now hA hok
    rcases hok with ⟨hc, hd⟩ | ⟨hne, hcc⟩
    · subst hc
      simp [MonthVesting.createSchedule, hA, hd]
    · have hlen : ¬ custom.length = 0 := by
        simpa using fun h => hne (List.length_eq_zero.mp h)
      simp [MonthVesting.createSchedule, hA, hlen, hcc]
  · intro st caller token beneficiary total cliff dur custom pullOk now e h
    simp [MonthVesting.applyCreate, h]

/-- C8 witness: concrete calls hitting each failure class, each leaving the
fresh store unchanged. -/
theorem createSchedule_validation_spec_witness :
    MonthVesting.createSchedule MonthVesting.initState 9 0 5 10 0 12 [] true 0
        = .error .invalidParams
    ∧ MonthVesting.createSchedule MonthVesting.initState 9 1 5 10 6 6 [] true 0
        = .error .invalidSchedule
    ∧ MonthVesting.createSchedule MonthVesting.initState 9 1 5 100 0 0 [⟨50, 100, true⟩] true 0
        = .error .invalidCustomSchedule
    ∧ MonthVesting.createSchedule MonthVesting.initState 9 1 5 100 0 12 [] false 0
        = .error .transferFailed
    ∧ MonthVesting.applyCreate MonthVesting.initState 9 0 5 10 0 12 [] true 0
        = MonthVesting.initState :=
  ⟨createSchedule_validation_spec.1 MonthVesting.initState 9 0 5 10 0 12 [] true 0 (by decide),
   createSchedule_validation_spec.2.1 MonthVesting.initState 9 1 5 10 6 6 true 0
     (by decide) (by decide),
   createSchedule_validation_spec.2.2.1 MonthVesting.initState 9 1 5 100 0 0 [⟨50, 100, true⟩]
     true 0 (by decide) (by decide) (Or.inl ⟨⟨50, 100, true⟩, by simp, rfl⟩),
   createSchedule_validation_spec.2.2.2.1 MonthVesting.initState 9 1 5 100 0 12 [] 0
     (by decide) (Or.inl ⟨rfl, by decide⟩),
   createSchedule_validation_spec.2.2.2.2 MonthVesting.initState 9 0 5 10 0 12 [] true 0
     .invalidParams
     (createSchedule_validation_spec.1 MonthVesting.initState 9 0 5 10 0 12 [] true 0 (by decide))⟩

theorem MonthVesting.createSchedule_ok (st : MonthVesting.State)
    (caller token beneficiary total cliff dur : Nat)
    (custom : List MonthVesting.CustomRelease) (pullOk : Bool) (now : Nat)
    (st' : MonthVesting.State)
    (h : MonthVesting.createSchedule st caller token beneficiary total cliff dur custom pullOk now
      = .ok st') :
    st' = MonthVesting.createResult st caller token beneficiary total cliff dur custom now := by
  by_cases hA : token = 0 ∨ beneficiary = 0 ∨ total = 0
  · simp [MonthVesting.createSchedule, hA] at h
  · simp only [MonthVesting.createSchedule, hA, if_false, ite_false] at h
    split at h
    · exact Except.noConfusion h
    · split at h
      · exact Except.noConfusion h
      · exact (Except.ok.inj h).symm

theorem count_pushUser (m : Nat → List Nat) (u id v id0 : Nat) :
    (pushUser m u id v).count id0
      = (m v).count id0 + (if v = u ∧ id0 = id then 1 else 0) := by
  by_cases hv : v = u
  · subst hv
    rw [pushUser_self, List.count_append]
    by_cases hid : id0 = id
    · simp [hid]
    · simp [List.count_singleton', hid]
  · rw [pushUser_other _ _ _ _ hv]
    simp [hv]

theorem StepVesting.createLoop_count (caller token base rem startTs cliffEnd dur intv : Nat) :
    ∀ (recips : List Nat) (i : Nat) (st st' : StepVesting.State),
      StepVesting.createLoop caller token base rem startTs cliffEnd dur intv recips i st
        = .ok st' →
      (∀ u id0, id0 ≤ st.nextScheduleId ∨ st.nextScheduleId + recips.length < id0 →
        (st'.userSchedules u).count id0 = (st.userSchedules u).count id0)
      ∧ (∀ j, (hj : j < recips.length) → ∀ u,
        (st'.userSchedules u).count (st.nextScheduleId + 1 + j)
          = (st.userSchedules u).count (st.nextScheduleId + 1 + j)
            + (if u = recips.get ⟨j, hj⟩ then 1 else 0)
            + (if u = caller then 1 else 0)) := by
  intro recips
  induction recips with
  | nil =>
    intro i st st' h
    simp only [StepVesting.createLoop] at h
    cases h
    exact ⟨fun u id0 _ => rfl, fun j hj => absurd hj (by simp)⟩
  | cons b rest ih =>
    intro i st st' h
    simp only [StepVesting.createLoop] at h
    by_cases hb : b = 0
    · simp [hb] at h
    · simp only [hb, if_false, ite_false] at h
      obtain ⟨iha, ihb⟩ := ih (i + 1) _ st' h
      simp only at iha ihb
      constructor
      · intro u id0 hid
        have hid' : id0 ≤ st.nextScheduleId + 1 ∨ st.nextScheduleId + 1 + rest.length < id0 := by
          rcases hid with hid | hid
          · exact Or.inl (by omega)
          · refine Or.inr ?_
            simp [List.length_cons] at hid
            omega
        have hne : id0 ≠ st.nextScheduleId + 1 := by
          rcases hid with hid | hid
          · omega
          · simp [List.length_cons] at hid
            omega
        rw [iha u id0 hid', count_pushUser, count_pushUser]
        simp [hne]
      · intro j hj u
        match j with
        | 0 =>
          rw [show st.nextScheduleId + 1 + 0 = st.nextScheduleId + 1 from rfl]
          rw [iha u (st.nextScheduleId + 1) (Or.inl (by omega))]
          rw [count_pushUser, count_pushUser]
          simp
        | Nat.succ k =>
          have hk : k < rest.length := by
            simp [List.length_cons] at hj
            omega
          have hieq := ihb k hk u
          rw [show st.nextScheduleId + 1 + (k + 1) = st.nextScheduleId + 1 + 1 + k from by omega]
          rw [hieq, count_pushUser, count_pushUser]
          have hne : st.nextScheduleId + 1 + 1 + k ≠ st.nextScheduleId + 1 := by omega
          simp [hne]

theorem StepVesting.createEqual_ok_loop (st : StepVesting.State) (caller token : Nat)
    (recips : List Nat) (total cliff dur intv : Nat) (pullOk : Bool) (now : Nat)
    (st' : StepVesting.State)
    (h : StepVesting.createSchedulesEqual st caller token recips total cliff dur intv pullOk now
      = .ok st') :
    StepVesting.createLoop caller token (total / recips.length) (total % recips.length)
      now (now + cliff) dur intv recips 0 st = .ok st' := by
  by_cases hA : token = 0 ∨ total = 0
  · simp [StepVesting.createSchedulesEqual, hA] at h
  · by_cases hB : recips.length = 0
    · simp [StepVesting.createSchedulesEqual, hA, hB] at h
    · by_cases hC : 20 < recips.length
      · simp [StepVesting.createSchedulesEqual, hA, hB, hC] at h
      · by_cases hD : dur = 0 ∨ intv = 0 ∨ dur % intv ≠ 0
        · simp [StepVesting.createSchedulesEqual, hA, hB, hC, hD] at h
        · by_cases hE : pullOk = false
          · simp [StepVesting.createSchedulesEqual, hA, hB, hC, hD, hE] at h
          · simpa [StepVesting.createSchedulesEqual, hA, hB, hC, hD, hE] using h

/-- C10: every successful `createSchedule` of `PlasmaticVesting.sol` appends
the new id to both the caller's and the beneficiary's `userSchedules` arrays,
and when the caller is also the beneficiary that account's array gains the
same id twice (first conjunct); likewise every successful
`createSchedulesEqual` of `src/unnamed/part_003` pushes each new id onto its
recipient's and the caller's arrays, so a caller who is also recipient `j`
ends up with that id twice (second conjunct). -/
theorem userSchedules_double_append_spec :
    (∀ (st : MonthVesting.State) (caller token beneficiary total cliff dur : Nat)
      (custom : List MonthVesting.CustomRelease) (pullOk : Bool) (now : Nat)
      (st' : MonthVesting.State),
      MonthVesting.createSchedule st caller token beneficiary total cliff dur custom pullOk now
        = .ok st' →
      (caller ≠ beneficiary →
        st'.userSchedules caller = st.userSchedules caller ++ [st.nextScheduleId + 1]
        ∧ st'.userSchedules beneficiary
          = st.userSchedules beneficiary ++ [st.nextScheduleId + 1])
      ∧ (caller = beneficiary →
        st'.userSchedules beneficiary
          = st.userSchedules beneficiary ++ [st.nextScheduleId + 1, st.nextScheduleId + 1])
      ∧ ((∀ x ∈ st.userSchedules beneficiary, x ≤ st.nextScheduleId) →
        caller = beneficiary →
        (st'.userSchedules beneficiary).count (st.nextScheduleId + 1) = 2))
    ∧ (∀ (st : StepVesting.State) (caller token : Nat) (recips : List Nat)
      (total cliff dur intv : Nat) (pullOk : Bool) (now : Nat) (st' : StepVesting.State),
      StepVesting.createSchedulesEqual st caller token recips total cliff dur intv pullOk now
        = .ok st' →
      (∀ j, (hj : j < recips.length) → ∀ u,
        (st'.userSchedules u).count (st.nextScheduleId + 1 + j)
          = (st.userSchedules u).count (st.nextScheduleId + 1 + j)
            + (if u = recips.get ⟨j, hj⟩ then 1 else 0)
            + (if u = caller then 1 else 0))
      ∧ (∀ j, (hj : j < recips.length) →
          (∀ x ∈ st.userSchedules caller, x ≤ st.nextScheduleId) →
          caller = recips.get ⟨j, hj⟩ →
          (st'.userSchedules caller).count (st.nextScheduleId + 1 + j) = 2)) := by
  constructor
  · intro st caller token beneficiary total cliff dur custom pullOk now st' h
    have hres := MonthVesting.createSchedule_ok st caller token beneficiary total cliff dur custom
      pullOk now st' h
    subst hres
    have heq : caller = beneficiary → MonthVesting.State.userSchedules
        (MonthVesting.createResult st caller token beneficiary total cliff dur custom now)
          beneficiary
        = st.userSchedules beneficiary ++ [st.nextScheduleId + 1, st.nextScheduleId + 1] := by
      intro hcb
      subst hcb
      simp [MonthVesting.createResult, pushUser, List.append_assoc]
    refine ⟨?_, heq, ?_⟩
    · intro hne
      have hne' : ¬(beneficiary = caller) := fun hx => hne hx.symm
      constructor
      · simp [MonthVesting.createResult, pushUser, hne, hne']
      · simp [MonthVesting.createResult, pushUser, hne, hne']
    · intro hbound hcb
      rw [heq hcb]
      rw [List.count_append]
      have hz : (st.userSchedules beneficiary).count (st.nextScheduleId + 1) = 0 := by
        apply List.count_eq_zero.mpr
        intro hmem
        have := hbound _ hmem
        omega
      rw [hz]
      simp
  · intro st caller token recips total cliff dur intv pullOk now st' h
    have hloop := StepVesting.createEqual_ok_loop st caller token recips total cliff dur intv
      pullOk now st' h
    obtain ⟨_, hcnt⟩ := StepVesting.createLoop_count caller token (total / recips.length)
      (total % recips.length) now (now + cliff) dur intv recips 0 st st' hloop
    refine ⟨hcnt, ?_⟩
    intro j hj hbound hcb
    have hz : (st.userSchedules caller).count (st.nextScheduleId + 1 + j) = 0 := by
      apply List.count_eq_zero.mpr
      intro hmem
      have := hbound _ hmem
      omega
    rw [hcnt j hj caller, hz, if_pos hcb, if_pos rfl]

/-- C10 witness: a self-vesting `createSchedule` on a fresh monthly contract
stores the new id twice in the creator-beneficiary's index, and a
`createSchedulesEqual` whose caller is also the first recipient stores that
recipient's schedule id twice in the caller's index. -/
theorem userSchedules_double_append_spec_witness :
    c10After.userSchedules 5 = [1, 1]
    ∧ (c10After.userSchedules 5).count 1 = 2
    ∧ (c10bAfter.userSchedules 5).count 1 = 2 :=
  ⟨(userSchedules_double_append_spec.1 MonthVesting.initState 5 1 5 100 0 12 [] true 0
      c10After rfl).2.1 rfl,
   (userSchedules_double_append_spec.1 MonthVesting.initState 5 1 5 100 0 12 [] true 0
      c10After rfl).2.2 (by simp [MonthVesting.initState]) rfl,
   (userSchedules_double_append_spec.2 StepVesting.initState 5 1 [5, 6] 100 0 7776000 2592000
      true 1000 c10bAfter rfl).2 0 (by decide) (by simp [StepVesting.initState]) rfl⟩

theorem TokenLockerV1.lockResult_nextLockId (st : TokenLockerV1.State)
    (caller token amount lockUntil : Nat) :
    (TokenLockerV1.lockResult st caller token amount lockUntil).nextLockId
      = st.nextLockId + 1 := rfl

theorem TokenLockerV1.lockResult_locks (st : TokenLockerV1.State)
    (caller token amount lockUntil : Nat) :
    (TokenLockerV1.lockResult st caller token amount lockUntil).locks
      = setMap st.locks (st.nextLockId + 1) ⟨token, amount, 0, lockUntil, caller⟩ := rfl

theorem TokenLockerV1.lockResult_ownerLocks (st : TokenLockerV1.State)
    (caller token amount lockUntil : Nat) :
    (TokenLockerV1.lockResult st caller token amount lockUntil).ownerLocks
      = pushUser st.ownerLocks caller (st.nextLockId + 1) := rfl

theorem TokenLockerV1.lockResult_ownerIndex (st : TokenLockerV1.State)
    (caller token amount lockUntil : Nat) :
    (TokenLockerV1.lockResult st caller token amount lockUntil).ownerIndex
      = setMap st.ownerIndex (st.nextLockId + 1) (st.ownerLocks caller).length := rfl

theorem TokenLockerV1.lock_ok (st : TokenLockerV1.State)
    (caller token amount lockUntil now : Nat) (feeOk pullOk : Bool)
    (st' : TokenLockerV1.State)
    (h : TokenLockerV1.lock st caller token amount lockUntil now feeOk pullOk = .ok st') :
    amount ≠ 0 ∧ st' = TokenLockerV1.lockResult st caller token amount lockUntil := by
  by_cases hA : token = 0 ∨ amount = 0
  · simp [TokenLockerV1.lock, hA] at h
  · by_cases hB : lockUntil ≤ now
    · simp [TokenLockerV1.lock, hA, hB] at h
    · by_cases hC : feeOk = false
      · simp [TokenLockerV1.lock, hA, hB, hC] at h
      · by_cases hD : pullOk = false
        · simp [TokenLockerV1.lock, hA, hB, hC, hD] at h
        · refine ⟨fun h0 => hA (Or.inr h0), ?_⟩
          simp [TokenLockerV1.lock, hA, hB, hC, hD] at h
          exact h.symm

theorem TokenLockerV1.withdraw_ok (st : TokenLockerV1.State) (caller lockId now : Nat)
    (tOk : Bool) (st' : TokenLockerV1.State)
    (h : TokenLockerV1.withdraw st caller lockId now tOk = .ok st') :
    (st.locks lockId).owner = caller
    ∧ TokenLockerV1.withdrawable st lockId now ≠ 0
    ∧ st' = TokenLockerV1.withdrawResult st lockId now := by
  by_cases hA : (st.locks lockId).owner = caller
  · by_cases hB : TokenLockerV1.withdrawable st lockId now = 0
    · simp [TokenLockerV1.withdraw, hA, hB] at h
    · cases tOk with
      | false => simp [TokenLockerV1.withdraw, hA, hB] at h
      | true =>
        refine ⟨hA, hB, ?_⟩
        simp [TokenLockerV1.withdraw, hA, hB] at h
        exact h.symm
  · simp [TokenLockerV1.withdraw, hA] at h

theorem TokenLockerV1.withdrawable_facts (st : TokenLockerV1.State) (lockId now : Nat)
    (h : TokenLockerV1.withdrawable st lockId now ≠ 0) :
    (st.locks lockId).amount ≠ 0
    ∧ (st.locks lockId).withdrawn < (st.locks lockId).amount
    ∧ TokenLockerV1.withdrawable st lockId now
        = (st.locks lockId).amount - (st.locks lockId).withdrawn := by
  unfold TokenLockerV1.withdrawable at h ⊢
  by_cases h1 : (st.locks lockId).amount = 0
  · simp [h1] at h
  · by_cases h2 : now < (st.locks lockId).lockUntil
    · simp [h1, h2] at h
    · refine ⟨h1, ?_, ?_⟩
      · simp only [h1, h2, if_false, ite_false] at h
        omega
      · simp only [h1, h2, if_false, ite_false]

theorem TokenLockerV1.inv_lockResult (st : TokenLockerV1.State)
    (caller token amount lockUntil : Nat)
    (hI : TokenLockerV1.Inv st) (hamt : amount ≠ 0) :
    TokenLockerV1.Inv (TokenLockerV1.lockResult st caller token amount lockUntil) := by
  obtain ⟨hA, hB, hC, hE⟩ := hI
  have hfresh : ∀ o id, id ∈ st.ownerLocks o → id ≠ st.nextLockId + 1 := by
    intro o id hmem heq
    have h1 := (hB o id hmem).2.1
    have h2 := hC id (by omega)
    omega
  refine ⟨?_, ?_, ?_, ?_⟩
  · intro o k hk
    rw [TokenLockerV1.lockResult_ownerLocks] at hk ⊢
    rw [TokenLockerV1.lockResult_ownerIndex]
    by_cases ho : o = caller
    · subst ho
      rw [pushUser_self] at hk ⊢
      rw [List.length_append, List.length_singleton] at hk
      by_cases hkl : k < (st.ownerLocks o).length
      · rw [getD_append_lt _ _ _ hkl]
        have hne := hfresh o _ ((mem_iff_getD _ _).mpr ⟨k, hkl, rfl⟩)
        rw [setMap_other _ _ _ _ hne]
        exact hA o k hkl
      · have hke : k = (st.ownerLocks o).length := by omega
        subst hke
        rw [getD_append_len, setMap_self]
    · rw [pushUser_other _ _ _ _ ho] at hk ⊢
      have hne := hfresh o _ ((mem_iff_getD _ _).mpr ⟨k, hk, rfl⟩)
      rw [setMap_other _ _ _ _ hne]
      exact hA o k hk
  · intro o id hmem
    rw [TokenLockerV1.lockResult_ownerLocks] at hmem
    rw [TokenLockerV1.lockResult_locks]
    by_cases ho : o = caller
    · subst ho
      rw [pushUser_self] at hmem
      rcases List.mem_append.mp hmem with hmem | hmem
      · have hne := hfresh o _ hmem
        rw [setMap_other _ _ _ _ hne]
        exact hB o id hmem
      · have hid : id = st.nextLockId + 1 := List.mem_singleton.mp hmem
        subst hid
        rw [setMap_self]
        exact ⟨rfl, Nat.pos_of_ne_zero hamt, Nat.pos_of_ne_zero hamt⟩
    · rw [pushUser_other _ _ _ _ ho] at hmem
      have hne := hfresh o _ hmem
      rw [setMap_other _ _ _ _ hne]
      exact hB o id hmem
  · intro id hid
    rw [TokenLockerV1.lockResult_nextLockId] at hid
    rw [TokenLockerV1.lockResult_locks]
    rw [setMap_other _ _ _ _ (by omega)]
    exact hC id (by omega)
  · intro id h1 h2
    by_cases hid : id = st.nextLockId + 1
    · subst hid
      rw [TokenLockerV1.lockResult_ownerLocks, TokenLockerV1.lockResult_locks, setMap_self]
      show st.nextLockId + 1 ∈ pushUser st.ownerLocks caller (st.nextLockId + 1) caller
      rw [pushUser_self]
      exact List.mem_append_right _ (List.mem_singleton_self _)
    · rw [TokenLockerV1.lockResult_locks, setMap_other _ _ _ _ hid] at h1 h2
      rw [TokenLockerV1.lockResult_ownerLocks, TokenLockerV1.lockResult_locks,
        setMap_other _ _ _ _ hid]
      have hm := hE id h1 h2
      by_cases ho : (st.locks id).owner = caller
      · rw [ho] at hm ⊢
        rw [pushUser_self]
        exact List.mem_append_left _ hm
      · rw [pushUser_other _ _ _ _ ho]
        exact hm

theorem swapPop_props (L : List Nat) (f : Nat → Nat) (idx lockId : Nat)
    (hf : ∀ k, k < L.length → f (L.getD k 0) = k)
    (hidxlt : idx < L.length) (hgidx : L.getD idx 0 = lockId)
    (hsw : idx ≠ L.length - 1) :
    ((L.set idx (L.getD (L.length - 1) 0)).dropLast).length = L.length - 1
    ∧ (∀ k, k < L.length - 1 →
        setMap (setMap f (L.getD (L.length - 1) 0) idx) lockId 0
          (((L.set idx (L.getD (L.length - 1) 0)).dropLast).getD k 0) = k)
    ∧ (∀ x, x ∈ (L.set idx (L.getD (L.length - 1) 0)).dropLast → x ∈ L ∧ x ≠ lockId)
    ∧ (∀ x, x ∈ L → x ≠ lockId → x ∈ (L.set idx (L.getD (L.length - 1) 0)).dropLast)
    ∧ (∀ e, e ∉ L → setMap (setMap f (L.getD (L.length - 1) 0) idx) lockId 0 e = f e) := by
  have hinj : ∀ k k', k < L.length → k' < L.length → L.getD k 0 = L.getD k' 0 → k = k' := by
    intro k k' hk hk' he
    have e1 := hf k hk
    have e2 := hf k' hk'
    rw [he] at e1
    omega
  have hlast_mem : L.getD (L.length - 1) 0 ∈ L :=
    (mem_iff_getD _ _).mpr ⟨L.length - 1, by omega, rfl⟩
  have hlock_mem : lockId ∈ L := (mem_iff_getD _ _).mpr ⟨idx, hidxlt, hgidx⟩
  have hlast_ne : L.getD (L.length - 1) 0 ≠ lockId := by
    intro he
    exact hsw (hinj idx (L.length - 1) hidxlt (by omega) (by rw [hgidx, he]))
  have hlen' : ((L.set idx (L.getD (L.length - 1) 0)).dropLast).length = L.length - 1 := by
    rw [List.length_dropLast, List.length_set]
  have hget' : ∀ k, k < L.length - 1 →
      ((L.set idx (L.getD (L.length - 1) 0)).dropLast).getD k 0
        = if idx = k then L.getD (L.length - 1) 0 else L.getD k 0 := by
    intro k hk
    have h1 : k < (L.set idx (L.getD (L.length - 1) 0)).length - 1 := by
      rw [List.length_set]; omega
    rw [getD_dropLast_eq _ _ h1]
    by_cases hik : idx = k
    · subst hik
      rw [getD_set_eq _ _ _ hidxlt, if_pos rfl]
    · rw [getD_set_ne _ _ _ _ hik, if_neg hik]
  refine ⟨hlen', ?_, ?_, ?_, ?_⟩
  · intro k hk
    rw [hget' k hk]
    by_cases hik : idx = k
    · rw [if_pos hik]
      rw [setMap_other _ _ _ _ hlast_ne, setMap_self]
      exact hik
    · rw [if_neg hik]
      have hkm : k < L.length := by omega
      have hne1 : L.getD k 0 ≠ lockId := by
        intro he
        exact hik (hinj idx k hidxlt hkm (by rw [hgidx, he]))
      have hne2 : L.getD k 0 ≠ L.getD (L.length - 1) 0 := by
        intro he
        have := hinj k (L.length - 1) hkm (by omega) he
        omega
      rw [setMap_other _ _ _ _ hne1, setMap_other _ _ _ _ hne2]
      exact hf k hkm
  · intro x hx
    obtain ⟨k, hk, he⟩ := (mem_iff_getD _ _).mp hx
    rw [hlen'] at hk
    rw [hget' k hk] at he
    by_cases hik : idx = k
    · rw [if_pos hik] at he
      exact ⟨he ▸ hlast_mem, he ▸ hlast_ne⟩
    · rw [if_neg hik] at he
      have hkm : k < L.length := by omega
      refine ⟨(mem_iff_getD _ _).mpr ⟨k, hkm, he⟩, ?_⟩
      intro hxe
      exact hik (hinj idx k hidxlt hkm (by rw [hgidx, he, hxe]))
  · intro x hx hxne
    obtain ⟨k, hk, he⟩ := (mem_iff_getD _ _).mp hx
    have hkidx : k ≠ idx := by
      intro hkk
      subst hkk
      exact hxne (he.symm.trans hgidx)
    apply (mem_iff_getD _ _).mpr
    by_cases hkm : k = L.length - 1
    · refine ⟨idx, ?_, ?_⟩
      · rw [hlen']; omega
      · rw [hget' idx (by omega), if_pos rfl, ← hkm]
        exact he
    · refine ⟨k, ?_, ?_⟩
      · rw [hlen']; omega
      · rw [hget' k (by omega), if_neg (fun hh => hkidx hh.symm)]
        exact he
  · intro e he
    have h1 : e ≠ L.getD (L.length - 1) 0 := fun hh => he (hh ▸ hlast_mem)
    have h2 : e ≠ lockId := fun hh => he (hh ▸ hlock_mem)
    rw [setMap_other _ _ _ _ h2, setMap_other _ _ _ _ h1]

theorem popOnly_props (L : List Nat) (f : Nat → Nat) (idx lockId : Nat)
    (hf : ∀ k, k < L.length → f (L.getD k 0) = k)
    (hidxlt : idx < L.length) (hgidx : L.getD idx 0 = lockId)
    (hsw : idx = L.length - 1) :
    (L.dropLast).length = L.length - 1
    ∧ (∀ k, k < L.length - 1 → setMap f lockId 0 ((L.dropLast).getD k 0) = k)
    ∧ (∀ x, x ∈ L.dropLast → x ∈ L ∧ x ≠ lockId)
    ∧ (∀ x, x ∈ L → x ≠ lockId → x ∈ L.dropLast)
    ∧ (∀ e, e ∉ L → setMap f lockId 0 e = f e) := by
  have hinj : ∀ k k', k < L.length → k' < L.length → L.getD k 0 = L.getD k' 0 → k = k' := by
    intro k k' hk hk' he
    have e1 := hf k hk
    have e2 := hf k' hk'
    rw [he] at e1
    omega
  have hlock_mem : lockId ∈ L := (mem_iff_getD _ _).mpr ⟨idx, hidxlt, hgidx⟩
  have hlen' : (L.dropLast).length = L.length - 1 := List.length_dropLast L
  have hne_of_lt : ∀ k, k < L.length - 1 → L.getD k 0 ≠ lockId := by
    intro k hk he
    have hkm : k < L.length := by omega
    have := hinj idx k hidxlt hkm (by rw [hgidx, he])
    omega
  refine ⟨hlen', ?_, ?_, ?_, ?_⟩
  · intro k hk
    rw [getD_dropLast_eq _ _ hk]
    rw [setMap_other _ _ _ _ (hne_of_lt k hk)]
    exact hf k (by omega)
  · intro x hx
    obtain ⟨k, hk, he⟩ := (mem_iff_getD _ _).mp hx
    rw [hlen'] at hk
    rw [getD_dropLast_eq _ _ hk] at he
    exact ⟨(mem_iff_getD _ _).mpr ⟨k, by omega, he⟩, he ▸ hne_of_lt k hk⟩
  · intro x hx hxne
    obtain ⟨k, hk, he⟩ := (mem_iff_getD _ _).mp hx
    have hkidx : k ≠ idx := by
      intro hkk
      subst hkk
      exact hxne (he.symm.trans hgidx)
    have hklt : k < L.length - 1 := by omega
    apply (mem_iff_getD _ _).mpr
    refine ⟨k, by rw [hlen']; omega, ?_⟩
    rw [getD_dropLast_eq _ _ hklt]
    exact he
  · intro e he
    exact setMap_other _ _ _ _ (fun hh => he (hh ▸ hlock_mem))

theorem TokenLockerV1.withdrawResult_full (st : TokenLockerV1.State) (lockId now : Nat)
    (hfull : (st.locks lockId).amount
      ≤ (st.locks lockId).withdrawn + TokenLockerV1.withdrawable st lockId now) :
    (TokenLockerV1.withdrawResult st lockId now).nextLockId = st.nextLockId
    ∧ (TokenLockerV1.withdrawResult st lockId now).locks
        = setMap st.locks lockId { st.locks lockId with withdrawn := (st.locks lockId).withdrawn + TokenLockerV1.withdrawable st lockId now }
    ∧ (TokenLockerV1.withdrawResult st lockId now).ownerLocks
        = (TokenLockerV1.removeFromIndex st (st.locks lockId).owner lockId).1
    ∧ (TokenLockerV1.withdrawResult st lockId now).ownerIndex
        = (TokenLockerV1.removeFromIndex st (st.locks lockId).owner lockId).2 := by
  simp only [TokenLockerV1.withdrawResult]
  rw [if_pos hfull]
  exact ⟨rfl, rfl, rfl, rfl⟩

theorem TokenLockerV1.removeFromIndex_eq_swap (st : TokenLockerV1.State) (o lockId : Nat)
    (h : st.ownerIndex lockId ≠ (st.ownerLocks o).length - 1) :
    (TokenLockerV1.removeFromIndex st o lockId).1
      = setMap st.ownerLocks o
          (((st.ownerLocks o).set (st.ownerIndex lockId)
            ((st.ownerLocks o).getD ((st.ownerLocks o).length - 1) 0)).dropLast)
    ∧ (TokenLockerV1.removeFromIndex st o lockId).2
      = setMap (setMap st.ownerIndex
          ((st.ownerLocks o).getD ((st.ownerLocks o).length - 1) 0)
          (st.ownerIndex lockId)) lockId 0 := by
  simp only [TokenLockerV1.removeFromIndex]
  rw [if_pos h]
  exact ⟨rfl, rfl⟩

theorem TokenLockerV1.removeFromIndex_eq_pop (st : TokenLockerV1.State) (o lockId : Nat)
    (h : ¬ st.ownerIndex lockId ≠ (st.ownerLocks o).length - 1) :
    (TokenLockerV1.removeFromIndex st o lockId).1
      = setMap st.ownerLocks o (st.ownerLocks o).dropLast
    ∧ (TokenLockerV1.removeFromIndex st o lockId).2 = setMap st.ownerIndex lockId 0 := by
  simp only [TokenLockerV1.removeFromIndex]
  rw [if_neg h]
  exact ⟨rfl, rfl⟩

theorem TokenLockerV1.inv_withdrawResult (st : TokenLockerV1.State) (lockId now : Nat)
    (hI : TokenLockerV1.Inv st)
    (hwz : TokenLockerV1.withdrawable st lockId now ≠ 0) :
    TokenLockerV1.Inv (TokenLockerV1.withdrawResult st lockId now)
    ∧ ∀ o', lockId ∉ (TokenLockerV1.withdrawResult st lockId now).ownerLocks o' := by
  obtain ⟨hA, hB, hC, hE⟩ := hI
  obtain ⟨hamt, hwlt, hweq⟩ := TokenLockerV1.withdrawable_facts st lockId now hwz
  have hfull : (st.locks lockId).amount
      ≤ (st.locks lockId).withdrawn + TokenLockerV1.withdrawable st lockId now := by omega
  obtain ⟨hN, hK, hOL, hOI⟩ := TokenLockerV1.withdrawResult_full st lockId now hfull
  have hmemL : lockId ∈ st.ownerLocks ((st.locks lockId).owner) :=
    hE lockId (by omega) hwlt
  obtain ⟨kp, hkp, hke⟩ := (mem_iff_getD _ _).mp hmemL
  have hidx_eq : st.ownerIndex lockId = kp := by
    have h := hA ((st.locks lockId).owner) kp hkp
    rw [hke] at h
    exact h
  have hidxlt : st.ownerIndex lockId < (st.ownerLocks ((st.locks lockId).owner)).length := by
    omega
  have hgidx : (st.ownerLocks ((st.locks lockId).owner)).getD (st.ownerIndex lockId) 0
      = lockId := by
    rw [hidx_eq]
    exact hke
  have hcross : ∀ o', o' ≠ (st.locks lockId).owner → lockId ∉ st.ownerLocks o' := by
    intro o' hne hmem'
    exact hne ((hB o' lockId hmem').1).symm
  have hdisj : ∀ o' e, o' ≠ (st.locks lockId).owner → e ∈ st.ownerLocks o' →
      e ∉ st.ownerLocks ((st.locks lockId).owner) := by
    intro o' e hne hmem' hmem2
    have h1 := (hB o' e hmem').1
    have h2 := (hB ((st.locks lockId).owner) e hmem2).1
    exact hne (h1 ▸ h2)
  have hpack : ∃ (L' : List Nat) (f' : Nat → Nat),
      (TokenLockerV1.removeFromIndex st ((st.locks lockId).owner) lockId).1
        = setMap st.ownerLocks ((st.locks lockId).owner) L'
      ∧ (TokenLockerV1.removeFromIndex st ((st.locks lockId).owner) lockId).2 = f'
      ∧ L'.length = (st.ownerLocks ((st.locks lockId).owner)).length - 1
      ∧ (∀ k, k < (st.ownerLocks ((st.locks lockId).owner)).length - 1 →
          f' (L'.getD k 0) = k)
      ∧ (∀ x, x ∈ L' → x ∈ st.ownerLocks ((st.locks lockId).owner) ∧ x ≠ lockId)
      ∧ (∀ x, x ∈ st.ownerLocks ((st.locks lockId).owner) → x ≠ lockId → x ∈ L')
      ∧ (∀ e, e ∉ st.ownerLocks ((st.locks lockId).owner) → f' e = st.ownerIndex e) := by
    by_cases hsw : st.ownerIndex lockId ≠ (st.ownerLocks ((st.locks lockId).owner)).length - 1
    · obtain ⟨hr1, hr2⟩ := TokenLockerV1.removeFromIndex_eq_swap st _ lockId hsw
      obtain ⟨q1, q2, q3, q4, q5⟩ :=
        swapPop_props (st.ownerLocks ((st.locks lockId).owner)) st.ownerIndex
          (st.ownerIndex lockId) lockId (hA _) hidxlt hgidx hsw
      exact ⟨_, _, hr1, hr2, q1, q2, q3, q4, q5⟩
    · obtain ⟨hr1, hr2⟩ := TokenLockerV1.removeFromIndex_eq_pop st _ lockId hsw
      obtain ⟨q1, q2, q3, q4, q5⟩ :=
        popOnly_props (st.ownerLocks ((st.locks lockId).owner)) st.ownerIndex
          (st.ownerIndex lockId) lockId (hA _) hidxlt hgidx (by omega)
      exact ⟨_, _, hr1, hr2, q1, q2, q3, q4, q5⟩
  obtain ⟨L', f', hp1, hp2, hp3, hp4, hp5, hp6, hp7⟩ := hpack
  rw [hp1] at hOL
  rw [hp2] at hOI
  refine ⟨⟨?_, ?_, ?_, ?_⟩, ?_⟩
  · -- position map consistency
    intro o' k hk
    rw [hOL] at hk ⊢
    rw [hOI]
    by_cases ho' : o' = (st.locks lockId).owner
    · subst ho'
      rw [setMap_self] at hk ⊢
      rw [hp3] at hk
      exact hp4 k hk
    · rw [setMap_other _ _ _ _ ho'] at hk ⊢
      have hmem' : (st.ownerLocks o').getD k 0 ∈ st.ownerLocks o' :=
        (mem_iff_getD _ _).mpr ⟨k, hk, rfl⟩
      rw [hp7 _ (hdisj o' _ ho' hmem')]
      exact hA o' k hk
  · -- listed ids are live locks of their owner
    intro o' id hmem
    rw [hOL] at hmem
    rw [hK]
    by_cases ho' : o' = (st.locks lockId).owner
    · subst ho'
      rw [setMap_self] at hmem
      obtain ⟨hmem2, hne⟩ := hp5 id hmem
      rw [setMap_other _ _ _ _ hne]
      exact hB _ id hmem2
    · rw [setMap_other _ _ _ _ ho'] at hmem
      have hne : id ≠ lockId := by
        intro hh
        subst hh
        exact hcross o' ho' hmem
      rw [setMap_other _ _ _ _ hne]
      exact hB o' id hmem
  · -- fresh ids are unwritten
    intro id hid
    rw [hN] at hid
    rw [hK]
    have hne : id ≠ lockId := by
      intro hh
      subst hh
      exact hamt (hC id hid)
    rw [setMap_other _ _ _ _ hne]
    exact hC id hid
  · -- live locks are listed
    intro id h1 h2
    rw [hK] at h1 h2
    rw [hK, hOL]
    by_cases hid : id = lockId
    · subst hid
      rw [setMap_self] at h1 h2
      simp only at h2
      omega
    · rw [setMap_other _ _ _ _ hid] at h1 h2 ⊢
      have hmem2 := hE id h1 h2
      by_cases how : (st.locks id).owner = (st.locks lockId).owner
      · rw [how] at hmem2 ⊢
        rw [setMap_self]
        exact hp6 id hmem2 hid
      · rw [setMap_other _ _ _ _ how]
        exact hmem2
  · -- the settled id is gone from every owner's array
    intro o' hmem
    rw [hOL] at hmem
    by_cases ho' : o' = (st.locks lockId).owner
    · subst ho'
      rw [setMap_self] at hmem
      exact (hp5 lockId hmem).2 rfl
    · rw [setMap_other _ _ _ _ ho'] at hmem
      exact hcross o' ho' hmem

theorem TokenLockerV1.inv_applyOp (st : TokenLockerV1.State) (op : TokenLockerV1.Op)
    (hI : TokenLockerV1.Inv st) : TokenLockerV1.Inv (TokenLockerV1.applyOp st op) := by
  cases op with
  | doLock caller token amount lockUntil now feeOk pullOk =>
    cases hres : TokenLockerV1.lock st caller token amount lockUntil now feeOk pullOk with
    | error e => simp only [TokenLockerV1.applyOp, hres]; exact hI
    | ok s' =>
      simp only [TokenLockerV1.applyOp, hres]
      obtain ⟨hamt, hrw⟩ :=
        TokenLockerV1.lock_ok st caller token amount lockUntil now feeOk pullOk s' hres
      subst hrw
      exact TokenLockerV1.inv_lockResult st caller token amount lockUntil hI hamt
  | doWithdraw caller lockId now tOk =>
    cases hres : TokenLockerV1.withdraw st caller lockId now tOk with
    | error e => simp only [TokenLockerV1.applyOp, hres]; exact hI
    | ok s' =>
      simp only [TokenLockerV1.applyOp, hres]
      obtain ⟨hown, hwz, hrw⟩ := TokenLockerV1.withdraw_ok st caller lockId now tOk s' hres
      subst hrw
      exact (TokenLockerV1.inv_withdrawResult st lockId now hI hwz).1

theorem TokenLockerV1.inv_init : TokenLockerV1.Inv TokenLockerV1.initState := by
  refine ⟨?_, ?_, ?_, ?_⟩
  · intro o k hk
    simp [TokenLockerV1.initState] at hk
  · intro o id hmem
    simp [TokenLockerV1.initState] at hmem
  · intro id _
    rfl
  · intro id h1 _
    simp [TokenLockerV1.initState, TokenLockerV1.LockInfo.empty] at h1

theorem TokenLockerV1.lockerInv_run (ops : List TokenLockerV1.Op) :
    TokenLockerV1.Inv (TokenLockerV1.run TokenLockerV1.initState ops) := by
  have gen : ∀ (ops : List TokenLockerV1.Op) (st : TokenLockerV1.State),
      TokenLockerV1.Inv st → TokenLockerV1.Inv (TokenLockerV1.run st ops) := by
    intro ops
    induction ops with
    | nil => intro st hst; exact hst
    | cons op rest ih =>
      intro st hst
      exact ih (TokenLockerV1.applyOp st op) (TokenLockerV1.inv_applyOp st op hst)
  exact gen ops TokenLockerV1.initState TokenLockerV1.inv_init

/-- C9: in `PlasmaticTokenLockerV1.sol`, the owner-index invariant — every
position `k` of every owner's `ownerLocks` array holds an id whose recorded
`ownerIndex` is exactly `k` — holds in the fresh contract, is preserved by
every transaction (`lock` and `withdraw`, successful or reverting), hence
holds in every reachable state; and after a successful `withdraw` the settled
lock id no longer appears in any owner's `locksOf` array. -/
theorem locker_index_invariant_spec :
    TokenLockerV1.Inv TokenLockerV1.initState
    ∧ (∀ (st : TokenLockerV1.State) (op : TokenLockerV1.Op),
        TokenLockerV1.Inv st → TokenLockerV1.Inv (TokenLockerV1.applyOp st op))
    ∧ (∀ ops : List TokenLockerV1.Op,
        TokenLockerV1.Inv (TokenLockerV1.run TokenLockerV1.initState ops))
    ∧ (∀ (st : TokenLockerV1.State) (caller lockId now : Nat) (tOk : Bool)
        (st' : TokenLockerV1.State),
        TokenLockerV1.Inv st →
        TokenLockerV1.withdraw st caller lockId now tOk = .ok st' →
        ∀ o, lockId ∉ st'.ownerLocks o) := by
  refine ⟨TokenLockerV1.inv_init, TokenLockerV1.inv_applyOp, TokenLockerV1.lockerInv_run, ?_⟩
  intro st caller lockId now tOk st' hI h
  obtain ⟨hown, hwz, hrw⟩ := TokenLockerV1.withdraw_ok st caller lockId now tOk st' h
  subst hrw
  exact (TokenLockerV1.inv_withdrawResult st lockId now hI hwz).2

/-- C9 witness: after locking and fully withdrawing lock 1, the invariant
holds and the id is gone from the owner's array. -/
theorem locker_index_invariant_spec_witness :
    TokenLockerV1.Inv c9Locked
    ∧ 1 ∉ c9After.ownerLocks 5 :=
  ⟨locker_index_invariant_spec.2.1 TokenLockerV1.initState (.doLock 5 1 100 50 10 true true)
      locker_index_invariant_spec.1,
   locker_index_invariant_spec.2.2.2 c9Locked 5 1 60 true c9After
      (locker_index_invariant_spec.2.1 TokenLockerV1.initState
        (.doLock 5 1 100 50 10 true true) locker_index_invariant_spec.1)
      rfl 5⟩
